import Mathlib

/-!
# Formal model of the Smart Transport System for Cairo — core algorithms

This file gives a shallow embedding, in Lean 4, of the five algorithmic
routines of the repository (`src/algorithms/shortestpath.py`, `mst.py`,
`dp.py`, `greedy.py`) and proves the stated properties about them.

Modelling conventions:
* Python `float` arithmetic is modelled exactly over `ℚ` (and over `ℝ` for the
  signal optimizer, whose code computes irrational powers `flow ** 1.5`,
  `flow ** 0.5`).
* Python dictionaries are modelled as association lists (insertion order) or
  as finite maps built by folds with overwriting updates, matching `dict`
  semantics (later assignment wins, unique keys).
* Fallible code (`ZeroDivisionError`, `NodeNotFound` exceptions) is modelled
  with `Except`.
* `networkx` calls (`shortest_path`, `shortest_path_length`, `has_path`) are
  modelled by their documented semantics: minimum-total-weight path over the
  (finite) graph, which is what Dijkstra computes for nonnegative weights.
-/

namespace CairoTransport

deriving instance DecidableEq for Except

/-- Python exceptions that the modelled code can raise. -/
inductive PyErr where
  | nodeNotFound
  | zeroDivision
deriving Repr, DecidableEq

/-- `d.get(k, dflt)` on an association-list dictionary with `ℚ` values. -/
def qGetD (d : List (String × ℚ)) (k : String) (dflt : ℚ) : ℚ :=
  match d.find? (fun kv => kv.1 = k) with
  | some kv => kv.2
  | none => dflt

/-! ## Edge data and graphs (`networkx` road network)

Edge attribute dictionaries carry optional `distance` / `capacity` /
`condition` entries; `Option` models the `.get(key, default)` accesses of the
source. -/

structure EdgeData where
  distance : Option ℚ
  capacity : Option ℚ
  condition : Option ℚ
deriving Repr, DecidableEq

/-- An undirected `networkx` graph: node ids plus a list of stored edges
`(u, v, data)`.  `nx.Graph` keeps at most one edge per unordered pair. -/
structure Graph where
  nodes : List String
  edges : List (String × String × EdgeData)
deriving Repr, DecidableEq

/-- Edge-attribute lookup `G[u][v]`, matching the stored edge in either
orientation (undirected). -/
def edgeBetween (G : Graph) (u v : String) : Option EdgeData :=
  match G.edges.find? (fun e => (e.1 = u ∧ e.2.1 = v) ∨ (e.1 = v ∧ e.2.1 = u)) with
  | some e => some e.2.2
  | none => none

/-- Neighbor list of `u` (both orientations of stored edges). -/
def adj (G : Graph) (u : String) : List String :=
  G.edges.filterMap (fun e =>
    if e.1 = u then some e.2.1 else if e.2.1 = u then some e.1 else none)

/-- `hasEdge G a b`: some stored edge joins `a` and `b`. -/
def hasEdge (G : Graph) (a b : String) : Prop :=
  ∃ e ∈ G.edges, (e.1 = a ∧ e.2.1 = b) ∨ (e.1 = b ∧ e.2.1 = a)

instance (G : Graph) (a b : String) : Decidable (hasEdge G a b) := by
  unfold hasEdge; exact List.decidableBEx _ _

/-- Connectivity of two nodes through the stored edges (the mathematical
meaning of `nx.has_path`). -/
def ConnG (G : Graph) (a b : String) : Prop :=
  Relation.ReflTransGen (fun x y => hasEdge G x y) a b

/-! ## `run_dijkstra` — time-dependent edge reweighting

`shortestpath.py`, lines 26–83.  Traffic flow tables are dictionaries keyed by
road ids of the form `"u-v"`; the code builds a bidirectional
`road_id_map` from endpoint pairs to road ids and uses it to reweight each
edge. -/

/-- Split a character list at every occurrence of `c` (the semantics of
Python `str.split` with a one-character separator, empty pieces kept). -/
def splitOnChar (c : Char) : List Char → List (List Char)
  | [] => [[]]
  | x :: xs =>
    let r := splitOnChar c xs
    if x = c then [] :: r
    else
      match r with
      | [] => [[x]]
      | y :: ys => (x :: y) :: ys

/-- `road_id.split("-")` giving the two endpoint node ids (source lines 29–31). -/
def roadIdEnds (roadId : String) : String × String :=
  let parts := (splitOnChar (Char.ofNat 45) roadId.data).map (fun l => String.mk l)
  (parts.getD 0 "", parts.getD 1 "")

/-- The `road_id_map` dictionary: built by iterating over `traffic_flows` and
registering both endpoint orders for each road id; a later road id overwrites
an earlier one at the same key (Python `dict` assignment). -/
def roadIdMap (trafficFlows : List (String × List (String × ℚ))) :
    String × String → Option String :=
  trafficFlows.foldl
    (fun m kv =>
      let ends := roadIdEnds kv.1
      fun k =>
        if k = (ends.2, ends.1) then some kv.1
        else if k = (ends.1, ends.2) then some kv.1
        else m k)
    (fun _ => none)

/-- Traffic factor of an edge `(u, v)` with attributes `data`
(source lines 42–70): look the edge key up in `road_id_map` first in stored
order, then reversed; compute the BPR factor `1 + 0.15 (flow/capacity)^4`,
with `flow` defaulting to `0` for a missing time bucket and `capacity`
defaulting to `3000`; ratio forced to `1.0` when `capacity ≤ 0`. -/
def bprFactor (trafficFlows : List (String × List (String × ℚ)))
    (timePeriod : String) (data : EdgeData) (roadId : String) : ℚ :=
  match trafficFlows.find? (fun kv => kv.1 = roadId) with
  | some kv =>
    let flow := qGetD kv.2 timePeriod 0
    let capacity := data.capacity.getD 3000
    let vcRatio := if capacity > 0 then flow / capacity else 1
    1 + (15/100) * vcRatio ^ 4
  | none => 1

def trafficFactor (trafficFlows : List (String × List (String × ℚ)))
    (timePeriod u v : String) (data : EdgeData) : ℚ :=
  let m := roadIdMap trafficFlows
  match m (u, v) with
  | some roadId => bprFactor trafficFlows timePeriod data roadId
  | none =>
    match m (v, u) with
    | some roadId => bprFactor trafficFlows timePeriod data roadId
    | none => 1

/-- Condition factor `1.2 - condition/10` (source line 74), condition
defaulting to `5`. -/
def conditionFactor (data : EdgeData) : ℚ :=
  (12/10) - data.condition.getD 5 / 10

/-- The travel-time weight written to the edge (source line 78):
`distance / (60 * (1/traffic_factor) * (1/condition_factor)) * 60`. -/
def dijkstraEdgeWeight (trafficFlows : List (String × List (String × ℚ)))
    (timePeriod u v : String) (data : EdgeData) : ℚ :=
  let distance := data.distance.getD 1
  let tf := trafficFactor trafficFlows timePeriod u v data
  let cf := conditionFactor data
  distance / (60 * (1 / tf) * (1 / cf)) * 60

/-- Specification-side symmetric flow lookup: the bucket entry of the unique
road id whose endpoints match `{u, v}` in either order, defaulting to `0`
when the road or the bucket has no data. -/
def symFlow (trafficFlows : List (String × List (String × ℚ)))
    (u v bucket : String) : ℚ :=
  match trafficFlows.find?
      (fun kv => roadIdEnds kv.1 = (u, v) ∨ roadIdEnds kv.1 = (v, u)) with
  | some kv => qGetD kv.2 bucket 0
  | none => 0

/-! ## Simple-path enumeration and shortest paths

`nx.shortest_path` / `nx.shortest_path_length` with nonnegative weights
compute a minimum-total-weight path.  We model them by enumerating all simple
paths (the minimum over paths is attained at a simple path for nonnegative
weights) and taking the minimum / an argmin. -/

/-- All simple paths from `u` to `target` avoiding `visited`, with fuel
bounding the number of further steps. -/
def pathsAux (G : Graph) (target : String) : ℕ → String → List String → List (List String)
  | 0, u, _ => if u = target then [[u]] else []
  | n+1, u, visited =>
    if u = target then [[u]]
    else ((adj G u).filter (fun w => !(visited.contains w))).flatMap
         (fun w => (pathsAux G target n w (w :: visited)).map (fun p => u :: p))

/-- All simple paths of `G` from `o` to `d`. -/
def simplePaths (G : Graph) (o d : String) : List (List String) :=
  pathsAux G d G.nodes.length o [o]

/-- Total weight of a path under a symmetric edge-weight function. -/
def pathCost (w : String → String → ℚ) : List String → ℚ
  | a :: b :: rest => w a b + pathCost w (b :: rest)
  | _ => 0

/-- Minimum total weight over a list of paths (`⊤` when there is none):
the value `nx.shortest_path_length` computes. -/
def minPathCost (w : String → String → ℚ) (ps : List (List String)) : WithTop ℚ :=
  (ps.map (fun p => ((pathCost w p : ℚ) : WithTop ℚ))).foldr min ⊤

/-- A minimum-weight path from the list (`none` when there is none):
the path `nx.shortest_path` returns. -/
def argminPath (w : String → String → ℚ) (ps : List (List String)) :
    Option (List String) :=
  ps.foldl
    (fun best p =>
      match best with
      | none => some p
      | some b => if pathCost w p < pathCost w b then some p else best)
    none

/-- The reweighted edge weight used by `run_dijkstra` for traversing between
adjacent `a` and `b`: the weight written on the stored edge (computed from the
stored endpoint order, source lines 34–83); `0` for non-adjacent pairs (never
used on actual paths). -/
def dijkstraWeight (G : Graph) (tf : List (String × List (String × ℚ)))
    (bucket : String) (a b : String) : ℚ :=
  match G.edges.find? (fun e => (e.1 = a ∧ e.2.1 = b) ∨ (e.1 = b ∧ e.2.1 = a)) with
  | some e => dijkstraEdgeWeight tf bucket e.1 e.2.1 e.2.2
  | none => 0

/-- Per-step route information collected along the returned path
(source lines 94–112; presentational fields omitted). -/
structure RoadInfo where
  src : String
  tgt : String
  distance : ℚ
  time : ℚ
deriving Repr, DecidableEq

/-- The `path_edges` list built from the returned path. -/
def dijkstraPathEdges (G : Graph) (w : String → String → ℚ) :
    List String → List RoadInfo
  | a :: b :: rest =>
    { src := a, tgt := b,
      distance := ((edgeBetween G a b).getD ⟨none, none, none⟩).distance.getD 0,
      time := w a b } :: dijkstraPathEdges G w (b :: rest)
  | _ => []

/-- Observable outcome of `run_dijkstra` (presentational metrics omitted). -/
structure DijkstraOutcome where
  path : Option (List String)
  travel_time : WithTop ℚ
  path_edges : List RoadInfo
  error : Option String
deriving Repr, DecidableEq

/-- The no-path sentinel `(None, float("inf"), [], {"error": "No path found"})`
returned on `nx.NetworkXNoPath` (source line 193). -/
def noPathSentinel : DijkstraOutcome :=
  { path := none, travel_time := ⊤, path_edges := [], error := some "No path found" }

/-- `run_dijkstra` (source lines 6–193).  Reweights the graph, then runs the
library shortest-path routine.  `nx.shortest_path` raises `NodeNotFound` when
either endpoint is not a node; `nx.NetworkXNoPath` is caught and mapped to the
sentinel; on success the code divides by `len(path_edges)` (line 115), raising
`ZeroDivisionError` when the path has a single node (origin = destination). -/
def run_dijkstra (G : Graph) (origin destination bucket : String)
    (tf : List (String × List (String × ℚ))) : Except PyErr DijkstraOutcome :=
  let w := dijkstraWeight G tf bucket
  if origin ∈ G.nodes ∧ destination ∈ G.nodes then
    match argminPath w (simplePaths G origin destination) with
    | none => .ok noPathSentinel
    | some p =>
      let pes := dijkstraPathEdges G w p
      if pes.isEmpty then .error .zeroDivision
      else .ok { path := some p,
                 travel_time := minPathCost w (simplePaths G origin destination),
                 path_edges := pes, error := none }
  else .error .nodeNotFound

/-- Increase the flow entry of road `rid` for time bucket `bucket` by `δ`. -/
def bumpFlow (tf : List (String × List (String × ℚ))) (rid bucket : String)
    (δ : ℚ) : List (String × List (String × ℚ)) :=
  tf.map (fun kv =>
    if kv.1 = rid then
      (kv.1, kv.2.map (fun bv => if bv.1 = bucket then (bv.1, bv.2 + δ) else bv))
    else kv)

/-! ## `run_mst_algorithm` (`mst.py`, lines 5–228)

Kruskal over existing plus potential roads, with prioritization discounts on
the selection weight, and a dictionary-of-sets union-find (`trees`). -/

structure Neighborhood where
  id : String
  name : String
  population : ℕ
  x : ℚ
  y : ℚ
deriving Repr, DecidableEq

structure Facility where
  id : String
  name : String
  x : ℚ
  y : ℚ
deriving Repr, DecidableEq

/-- An existing road record (`from`/`to` rendered as `src`/`tgt`). -/
structure Road where
  src : String
  tgt : String
  distance : ℚ
  capacity : ℚ
  condition : ℚ
deriving Repr, DecidableEq

/-- A potential new road record (construction cost in millions EGP). -/
structure PotentialRoad where
  src : String
  tgt : String
  distance : ℚ
  capacity : ℚ
  cost : ℚ
deriving Repr, DecidableEq

/-- The population lookup loop (source lines 63–68 and 123–128): iterates over
all neighborhoods, a later match overwriting an earlier one. -/
def lookupPop (ns : List Neighborhood) (i : String) : Option ℕ :=
  ns.foldl (fun acc n => if n.id = i then some n.population else acc) none

/-- The high-population test (source lines 70–71 and 130–131):
`source_pop and target_pop and (source_pop >= 400000 or target_pop >= 400000)`
with Python truthiness — `None` or `0` population disables the discount. -/
def highPopApplies (ns : List Neighborhood) (s t : String) : Bool :=
  match lookupPop ns s, lookupPop ns t with
  | some p, some q =>
    decide (p ≠ 0) && decide (q ≠ 0) && (decide (400000 ≤ p) || decide (400000 ≤ q))
  | _, _ => false

/-- Hospital / airport connection test (source lines 80–88). -/
def hospApplies (s t : String) : Bool :=
  (decide (s = "F9") || decide (s = "F10") || decide (t = "F9") || decide (t = "F10")) ||
    (decide (s = "F1") || decide (t = "F1"))

/-- Selection weight of an existing road (source lines 47–91). -/
def existingRoadWeight (prioPop prioHosp : Bool) (ns : List Neighborhood)
    (road : Road) : ℚ :=
  let maintenance := (11 - road.condition) * 10
  let w1 := road.distance * maintenance
  let w2 := if prioPop && highPopApplies ns road.src road.tgt then w1 * (7/10) else w1
  if prioHosp && hospApplies road.src road.tgt then w2 * (6/10) else w2

/-- Selection weight of a potential road (source lines 109–151). -/
def potentialRoadWeight (prioPop prioHosp : Bool) (ns : List Neighborhood)
    (road : PotentialRoad) : ℚ :=
  let w1 := road.cost
  let w2 := if prioPop && highPopApplies ns road.src road.tgt then w1 * (8/10) else w1
  if prioHosp && hospApplies road.src road.tgt then w2 * (7/10) else w2

/-- The high-population discount rule as the claim words it ("whenever either
endpoint is a neighborhood with population ≥ 400,000 — including when the
other endpoint is a facility"); stated for the refinement comparison with the
code's `highPopApplies`. -/
def specHighPopApplies (ns : List Neighborhood) (s t : String) : Bool :=
  (match lookupPop ns s with
   | some p => decide (400000 ≤ p)
   | none => false) ||
  (match lookupPop ns t with
   | some q => decide (400000 ≤ q)
   | none => false)

/-- A prepared edge for Kruskal (source lines 94–106 and 154–165;
presentational attributes omitted; `cost` is the value added to
`total_cost` when the edge is selected). -/
structure MstEdge where
  src : String
  tgt : String
  weight : ℚ
  cost : ℚ
  road_type : String
deriving Repr, DecidableEq

/-- The prepared edge list: existing roads then potential roads. -/
def mstEdges (prioPop prioHosp : Bool) (ns : List Neighborhood)
    (existing : List Road) (potential : List PotentialRoad) : List MstEdge :=
  existing.map (fun r =>
    { src := r.src, tgt := r.tgt,
      weight := existingRoadWeight prioPop prioHosp ns r,
      cost := (11 - r.condition) * 10, road_type := "existing" }) ++
  potential.map (fun r =>
    { src := r.src, tgt := r.tgt,
      weight := potentialRoadWeight prioPop prioHosp ns r,
      cost := r.cost, road_type := "potential" })

/-- `edges.sort(key=lambda x: x[2]["weight"])` — a stable ascending sort. -/
def sortedMstEdges (prioPop prioHosp : Bool) (ns : List Neighborhood)
    (existing : List Road) (potential : List PotentialRoad) : List MstEdge :=
  List.insertionSort (fun a b => a.weight ≤ b.weight)
    (mstEdges prioPop prioHosp ns existing potential)

/-- State of the Kruskal loop: the `trees` dictionary (node → its current
tree, represented by the set of its members) and the selected edges. -/
structure KruskalState where
  trees : String → Finset String
  selected : List MstEdge

/-- One iteration of the Kruskal loop (source lines 181–207): select the edge
iff its endpoints lie in different trees, then merge the two trees, updating
every member node of the union. -/
def kruskalStep (st : KruskalState) (e : MstEdge) : KruskalState :=
  if st.trees e.src ≠ st.trees e.tgt then
    let union := st.trees e.src ∪ st.trees e.tgt
    { trees := fun n => if n ∈ union then union else st.trees n,
      selected := st.selected ++ [e] }
  else st

/-- Result of `run_mst_algorithm` (metrics needed by the claims; the
per-category counts and critical-facility tally are omitted). -/
structure MstResult where
  trees : String → Finset String
  selected_roads : List MstEdge
  total_cost : ℚ
  all_connected : Bool

/-- The node ids added to the MST graph: neighborhoods then facilities
(source lines 27–41). -/
def mstNodes (ns : List Neighborhood) (fs : List Facility) : List String :=
  ns.map (fun n => n.id) ++ fs.map (fun f => f.id)

/-- `run_mst_algorithm` (source lines 5–228). -/
def run_mst_algorithm (ns : List Neighborhood) (fs : List Facility)
    (existing : List Road) (potential : List PotentialRoad)
    (prioHosp prioPop : Bool) : MstResult :=
  let nodes := mstNodes ns fs
  let edges := sortedMstEdges prioPop prioHosp ns existing potential
  let init : KruskalState := { trees := fun n => {n}, selected := [] }
  let final := edges.foldl kruskalStep init
  { trees := final.trees,
    selected_roads := final.selected,
    total_cost := (final.selected.map (fun e => e.cost)).sum,
    all_connected := (nodes.toFinset.image final.trees).card == 1 }

/-- Symmetric one-step adjacency generated by an undirected edge list. -/
def pairRel (E : List (String × String)) (a b : String) : Prop :=
  (a, b) ∈ E ∨ (b, a) ∈ E

/-- Connectivity generated by an undirected edge list (specification side). -/
def ConnE (E : List (String × String)) (a b : String) : Prop :=
  Relation.ReflTransGen (pairRel E) a b

/-- The endpoint pairs of a prepared edge list. -/
def edgePairs (es : List MstEdge) : List (String × String) :=
  es.map (fun e => (e.src, e.tgt))

/-- The endpoint pairs of the input roads. -/
def roadPairs (existing : List Road) (potential : List PotentialRoad) :
    List (String × String) :=
  existing.map (fun r => (r.src, r.tgt)) ++ potential.map (fun r => (r.src, r.tgt))

/-- Loop invariant of the Kruskal fold: each node of the graph is mapped to
exactly the set of nodes connected to it through the processed edges. -/
def KruskalInv (nodes : List String) (E : List (String × String))
    (t : String → Finset String) : Prop :=
  ∀ u ∈ nodes, ∀ v : String, v ∈ t u ↔ v ∈ nodes ∧ ConnE E u v

/-! ## `run_transit_optimization` (`dp.py`, lines 1–407)

The route catalog is fixed reference data (source lines 15–86).  The greedy
reallocation loops (lines 195–275) are modelled exactly; the derived metrics
(waiting times, transfer coordination, lines 277–404) do not affect the
returned allocation and are omitted. -/

structure BusRoute where
  id : String
  routeName : String
  daily_passengers : ℚ
  stops : List String
  current_buses : ℤ
deriving Repr, DecidableEq

def bus_routes : List BusRoute := [
  ⟨"B1", "New Cairo - Downtown Cairo", 35000,
    ["New Cairo", "Nasr City", "Heliopolis", "Downtown Cairo"], 12⟩,
  ⟨"B2", "6th October City - Dokki - Downtown Cairo", 42000,
    ["6th October City", "Sheikh Zayed", "Mohandessin", "Dokki", "Downtown Cairo"], 15⟩,
  ⟨"B3", "Maadi - Zamalek - Mohandessin", 28000,
    ["Maadi", "Downtown Cairo", "Zamalek", "Mohandessin"], 10⟩,
  ⟨"B4", "Helwan - Maadi - Downtown Cairo", 32000,
    ["Helwan", "Maadi", "Downtown Cairo"], 11⟩,
  ⟨"B5", "Nasr City - Heliopolis - Shubra", 30000,
    ["Nasr City", "Heliopolis", "Shubra"], 10⟩,
  ⟨"B6", "New Cairo - Maadi - Giza", 25000,
    ["New Cairo", "Maadi", "Dokki", "Giza"], 9⟩,
  ⟨"B7", "Sheikh Zayed - Mohandessin", 18000,
    ["Sheikh Zayed", "6th October City", "Mohandessin"], 7⟩,
  ⟨"B8", "Al Rehab - Heliopolis - Downtown Cairo", 22000,
    ["Al Rehab", "Nasr City", "Heliopolis", "Downtown Cairo"], 8⟩,
  ⟨"B9", "New Administrative Capital - New Cairo - Nasr City", 15000,
    ["New Administrative Capital", "Al Rehab", "New Cairo", "Nasr City"], 6⟩,
  ⟨"B10", "Giza - Dokki - Downtown Cairo - Ramses Railway Station", 38000,
    ["Giza", "Dokki", "Downtown Cairo", "Ramses Railway Station"], 14⟩]

def routeIds : List String := bus_routes.map (fun r => r.id)

/-- `peak_hourly_demand` (source line 153): 70% of daily passengers over the
6 peak hours. -/
def peak_hourly_demand (r : BusRoute) : ℚ := r.daily_passengers * (7/10) / 6

/-- `offpeak_hourly_demand` (source line 154). -/
def offpeak_hourly_demand (r : BusRoute) : ℚ := r.daily_passengers * (3/10) / 12

/-- Total daily passenger waiting minutes of a route run with `b` buses
(source lines 204–206; `operational_minutes = 18 * 60 = 1080`). -/
def totalWait (r : BusRoute) (b : ℤ) : ℚ :=
  (1080/6) / (b : ℚ) / 2 * peak_hourly_demand r * 6 +
    (1080/12) / (b : ℚ) / 2 * offpeak_hourly_demand r * 12

/-- `allocation[route_id]` on the association-list allocation. -/
def allocLookup (alloc : List (String × ℤ)) (i : String) : ℤ :=
  (((alloc.find? (fun kv => kv.1 = i)).map (fun kv => kv.2)).getD 0)

/-- Marginal value of adding one bus to a route (source lines 201–214). -/
def addValue (alloc : List (String × ℤ)) (r : BusRoute) : ℚ :=
  let b := allocLookup alloc r.id
  totalWait r b - totalWait r (b + 1)

/-- Marginal cost of removing one bus from a route (source lines 237–268);
`float("inf")` for a route at its last bus. -/
def removeCost (alloc : List (String × ℤ)) (r : BusRoute) : WithTop ℚ :=
  let b := allocLookup alloc r.id
  if b ≤ 1 then ⊤ else ((totalWait r (b - 1) - totalWait r b : ℚ) : WithTop ℚ)

/-- `route_values.sort(key=..., reverse=True)` then `route_values[0]`:
the route receiving the next bus (source lines 224–227). -/
def pickAdd (alloc : List (String × ℤ)) : String :=
  ((List.insertionSort (fun a b : String × ℚ => b.2 ≤ a.2)
    (bus_routes.map (fun r => (r.id, addValue alloc r)))).headD ("B1", 0)).1

/-- `route_values.sort(key=...)` then `route_values[0]`: the route losing the
next bus (source lines 271–274). -/
def pickRemove (alloc : List (String × ℤ)) : String :=
  ((List.insertionSort (fun a b : String × WithTop ℚ => a.2 ≤ b.2)
    (bus_routes.map (fun r => (r.id, removeCost alloc r)))).headD ("B1", ⊤)).1

def incrAlloc (alloc : List (String × ℤ)) (i : String) : List (String × ℤ) :=
  alloc.map (fun kv => if kv.1 = i then (kv.1, kv.2 + 1) else kv)

def decrAlloc (alloc : List (String × ℤ)) (i : String) : List (String × ℤ) :=
  alloc.map (fun kv => if kv.1 = i then (kv.1, kv.2 - 1) else kv)

/-- The while-loop adding `k` extra buses (source lines 195–228). -/
def addLoop : ℕ → List (String × ℤ) → List (String × ℤ)
  | 0, alloc => alloc
  | k+1, alloc => addLoop k (incrAlloc alloc (pickAdd alloc))

/-- The while-loop removing `k` buses (source lines 231–275). -/
def removeLoop : ℕ → List (String × ℤ) → List (String × ℤ)
  | 0, alloc => alloc
  | k+1, alloc => removeLoop k (decrAlloc alloc (pickRemove alloc))

/-- `run_transit_optimization` (source lines 1–407), returning the
`bus_allocation` dictionary; `max_waiting_time` and `optimize_transfers`
only shape the omitted metrics. -/
def run_transit_optimization (total_buses : ℤ) (max_waiting_time : ℚ)
    (optimize_transfers : Bool) : List (String × ℤ) :=
  let alloc := bus_routes.map (fun r => (r.id, r.current_buses))
  let extra := total_buses - (alloc.map (fun kv => kv.2)).sum
  if extra > 0 then addLoop extra.toNat alloc
  else if extra < 0 then removeLoop (-extra).toNat alloc
  else alloc

instance : IsTotal (String × WithTop ℚ) (fun a b => a.2 ≤ b.2) :=
  ⟨fun a b => le_total a.2 b.2⟩

instance : IsTrans (String × WithTop ℚ) (fun a b => a.2 ≤ b.2) :=
  ⟨fun _ _ _ hab hbc => le_trans hab hbc⟩

/-! ## `run_greedy_algorithm` (`greedy.py`, lines 1–174)

Signal optimization.  The source computes with Python floats, including the
irrational powers `flow ** 1.5` and `flow ** 0.5`; the embedding therefore
idealizes float arithmetic over `ℝ` (with `Real.rpow` for `**`).  Every
Python division is guarded and mapped to `Except.error .zeroDivision` when
its denominator is zero. -/

/-- `d.get(k, dflt)` on an association list with real values. -/
noncomputable def rGetD (d : List (String × ℝ)) (k : String) (dflt : ℝ) : ℝ :=
  match d.find? (fun kv => kv.1 = k) with
  | some kv => kv.2
  | none => dflt

/-- One `traffic_data` entry (source lines 33–52). -/
structure TrafficEntry where
  road : String
  flow : ℝ
  outbound : Bool

/-- The outbound/inbound ratio by time period (source lines 41–46). -/
noncomputable def outboundRatio (timePeriod : String) : ℝ :=
  if timePeriod = "morning_peak" then 6/10
  else if timePeriod = "evening_peak" then 12/10
  else 9/10

/-- Flow of one road for the chosen period (source lines 26–30): the
`all_day` average divides by `len(traffic_flows[road_id])`, raising
`ZeroDivisionError` on an empty record. -/
noncomputable def roadFlowFor (timePeriod : String) (d : List (String × ℝ)) : Except PyErr ℝ :=
  if timePeriod = "all_day" then
    if d.length = 0 then .error .zeroDivision
    else .ok ((d.map (fun kv => kv.2)).sum / (d.length : ℝ))
  else .ok (rGetD d timePeriod 0)

/-- The `traffic_data` accumulation loop (source lines 22–52). -/
noncomputable def buildTrafficData (tf : List (String × List (String × ℝ)))
    (timePeriod : String) : List String → Except PyErr (List TrafficEntry)
  | [] => .ok []
  | road :: rest =>
    match tf.find? (fun kv => kv.1 = road) with
    | none => buildTrafficData tf timePeriod rest
    | some kv =>
      match roadFlowFor timePeriod kv.2 with
      | .error e => .error e
      | .ok flow =>
        match buildTrafficData tf timePeriod rest with
        | .error e => .error e
        | .ok entries =>
          .ok (⟨road, flow, false⟩ ::
               ⟨road, flow * outboundRatio timePeriod, true⟩ :: entries)

/-- Total (both-direction) flow of one road over `traffic_data`
(source lines 66, 77, 99). -/
noncomputable def roadFlow (td : List TrafficEntry) (road : String) : ℝ :=
  ((td.filter (fun e => e.road = road)).map (fun e => e.flow)).sum

/-- Green times under "Minimize Average Delay" (source lines 55–71). -/
noncomputable def greensMAD (td : List TrafficEntry) (roads : List String) (C : ℝ) :
    Except PyErr (List (String × ℝ)) :=
  let totalFlow := (td.map (fun e => e.flow)).sum
  if roads = [] then .ok []
  else if totalFlow = 0 then .error .zeroDivision
  else .ok (roads.map (fun rid =>
    (rid, max 10 ((roadFlow td rid / totalFlow) * (C - (roads.length : ℝ) * 10) + 10))))

/-- Green times under "Prioritize High-Traffic Roads" (source lines 73–91);
`sorted(..., reverse=True)` is a stable descending sort. -/
noncomputable def greensPHT (td : List TrafficEntry) (roads : List String) (C : ℝ) :
    Except PyErr (List (String × ℝ)) :=
  let roadFlows := roads.map (fun rid => (rid, roadFlow td rid))
  let sortedRoads := List.insertionSort (fun a b : String × ℝ => b.2 ≤ a.2) roadFlows
  let totalWeight := (sortedRoads.map (fun kv => kv.2 ^ (15/10 : ℝ))).sum
  if sortedRoads = [] then .ok []
  else if totalWeight = 0 then .error .zeroDivision
  else .ok (sortedRoads.map (fun kv =>
    (kv.1, max 10 ((kv.2 ^ (15/10 : ℝ) / totalWeight) * C))))

/-- Green times under "Balance Wait Times" (the default branch,
source lines 93–110). -/
noncomputable def greensBWT (td : List TrafficEntry) (roads : List String) (C : ℝ) :
    Except PyErr (List (String × ℝ)) :=
  let roadWeights := roads.map (fun rid => (rid, roadFlow td rid ^ (5/10 : ℝ)))
  let totalWeight := (roadWeights.map (fun kv => kv.2)).sum
  if roads = [] then .ok []
  else if totalWeight = 0 then .error .zeroDivision
  else .ok (roadWeights.map (fun kv =>
    (kv.1, max 15 ((kv.2 / totalWeight) * C))))

/-- Python `int(x)` on a real value: truncation toward zero. -/
noncomputable def pyInt (x : ℝ) : ℤ :=
  if 0 ≤ x then ⌊x⌋ else -⌊-x⌋

/-- Lookup in the green-times dictionary (`green_times[road_id]`). -/
noncomputable def greenLookup (greens : List (String × ℝ)) (rid : String) : ℝ :=
  ((greens.find? (fun kv => kv.1 = rid)).map (fun kv => kv.2)).getD 0

/-- Lookup in the red-times dictionary (`red_times[road_id]`). -/
noncomputable def redLookup (plan : List (String × ℤ × ℤ)) (rid : String) : ℝ :=
  (((plan.find? (fun kv => kv.1 = rid)).map (fun kv => kv.2.2)).getD 0 : ℤ)

/-- Observable outcome of `run_greedy_algorithm`: the per-road signal plan
(`green_time`, `red_time`, both Python ints), the normalized `green_times`
dictionary after line 117, and the wait metrics. -/
structure GreedyOut where
  plan : List (String × ℤ × ℤ)
  green_times : List (String × ℝ)
  avg_wait_time : ℝ
  improvement_pct : ℝ

/-- `run_greedy_algorithm` (source lines 1–174).  `max_cycle_length` is an
integer number of seconds. -/
noncomputable def run_greedy_algorithm (tf : List (String × List (String × ℝ)))
    (roads : List String) (timePeriod priority : String) (C : ℤ) :
    Except PyErr GreedyOut :=
  match buildTrafficData tf timePeriod roads with
  | .error e => .error e
  | .ok td =>
    match (if priority = "Minimize Average Delay" then greensMAD td roads (C : ℝ)
           else if priority = "Prioritize High-Traffic Roads" then
             greensPHT td roads (C : ℝ)
           else greensBWT td roads (C : ℝ)) with
    | .error e => .error e
    | .ok greens =>
      let totalGreen := (greens.map (fun kv => kv.2)).sum
      if totalGreen = 0 then .error .zeroDivision
      else
        let scaling := (C : ℝ) / totalGreen
        let normalized := greens.map (fun kv => (kv.1, kv.2 * scaling))
        let plan := roads.map (fun rid =>
          (rid, pyInt (greenLookup normalized rid),
           C - pyInt (greenLookup normalized rid)))
        let sumFlows := (td.map (fun e => e.flow)).sum
        if sumFlows = 0 then .error .zeroDivision
        else if roads.length = 0 then .error .zeroDivision
        else
          let totalWaiting := (td.map (fun e => e.flow * (redLookup plan e.road / 2))).sum
          let avgWait := totalWaiting / sumFlows
          let fixedGreen := (C : ℝ) / (roads.length : ℝ)
          let fixedRed := (C : ℝ) - fixedGreen
          let fixedWaiting := (td.map (fun e => e.flow * (fixedRed / 2))).sum
          let fixedAvgWait := fixedWaiting / sumFlows
          if fixedAvgWait = 0 then .error .zeroDivision
          else .ok
            { plan := plan, green_times := normalized, avg_wait_time := avgWait,
              improvement_pct := (fixedAvgWait - avgWait) / fixedAvgWait * 100 }

/-! ## `run_a_star` (`shortestpath.py`, lines 202–457)

Emergency routing: condition-based edge filtering with a connectivity
pre-check against the two hospital nodes `"F9"`/`"F10"`, a penalty fallback
that mutates stored distances, a hand-rolled A* loop over the resulting
graph, and a travel-time report read back from that same graph.  `math.sqrt`
is abstracted by a function parameter `sqrtFn` (the heuristic is only
evaluated at `0` in the concrete runs below). -/

/-- The graph left after removing every stored edge whose condition
(default `0`) is below `min_road_condition` (source lines 224–232 and
244–247). -/
def filteredGraph (G : Graph) (minCond : ℚ) : Graph :=
  { nodes := G.nodes,
    edges := G.edges.filter (fun e => !(e.2.2.condition.getD 0 < minCond)) }

/-- The penalty fallback (source lines 251–257): every edge whose condition
(default `5` here) is below `min_road_condition` has its stored `distance`
multiplied by `1 + (min_road_condition - condition)/5`, when a `distance`
attribute exists. -/
def penalizedGraph (G : Graph) (minCond : ℚ) : Graph :=
  { nodes := G.nodes,
    edges := G.edges.map (fun e =>
      let condition := e.2.2.condition.getD 5
      if condition < minCond then
        match e.2.2.distance with
        | some d =>
          (e.1, e.2.1,
           { e.2.2 with distance := some (d * (1 + (minCond - condition) / 5)) })
        | none => e
      else e) }

/-- The pre-check of source lines 235–242: `nx.has_path` on the filtered
copy for each of the hospital ids `"F9"`, `"F10"`; any exception (missing
node) is swallowed by the bare `except` and counts as no path. -/
def hasPathToHospital (G : Graph) (src : String) : Bool :=
  ["F9", "F10"].any (fun h =>
    (decide (src ∈ G.nodes) && decide (h ∈ G.nodes)) &&
      !(simplePaths G src h).isEmpty)

/-- The `emergency_graph` actually routed over (source lines 244–257):
filtered when some hospital stays reachable, distance-penalized otherwise. -/
def emergencyGraph (G : Graph) (minCond : ℚ) (src : String) : Graph :=
  if hasPathToHospital (filteredGraph G minCond) src then filteredGraph G minCond
  else penalizedGraph G minCond

/-- `nx` edge traversal weight under `weight="distance"`: the stored
`distance` attribute, `1` when the attribute is missing. -/
def distWeight (G : Graph) (a b : String) : ℚ :=
  match edgeBetween G a b with
  | some data => data.distance.getD 1
  | none => 0

/-- Nearest-hospital selection when no target is given (source lines
263–288): Dijkstra distance to each hospital (`inf` on `NetworkXNoPath`,
while a missing node raises `NodeNotFound`, which line 277 does not catch),
then a strict-minimum scan in the order `F9`, `F10`; if both distances are
infinite no hospital is chosen and `target_hospital_id` stays `None`. -/
def nearestHospital (G : Graph) (src : String) : Except PyErr (Option String) :=
  if src ∈ G.nodes ∧ "F9" ∈ G.nodes ∧ "F10" ∈ G.nodes then
    let d9 := minPathCost (distWeight G) (simplePaths G src "F9")
    let d10 := minPathCost (distWeight G) (simplePaths G src "F10")
    .ok (if d9 = ⊤ ∧ d10 = ⊤ then none
         else if d10 < d9 then some "F10" else some "F9")
  else .error .nodeNotFound

/-- `next((f for f in facilities if f["id"] == target_hospital_id), None)`
(source line 291), with `target_hospital_id` possibly `None`. -/
def facilityFind (fs : List Facility) (i : Option String) : Option Facility :=
  match i with
  | some hid => fs.find? (fun f => f.id = hid)
  | none => none

/-- The A* heuristic (source lines 299–320): Euclidean distance to the
hospital coordinates scaled by `10`, looking the node up first among
neighborhoods, then among facilities, `0` when unknown; `math.sqrt` is the
parameter `sqrtFn`. -/
def heuristic (sqrtFn : ℚ → ℚ) (ns : List Neighborhood) (fs : List Facility)
    (hx hy : ℚ) (node : String) : ℚ :=
  match ns.find? (fun n => n.id = node) with
  | some n => sqrtFn ((n.x - hx) ^ 2 + (n.y - hy) ^ 2) * 10
  | none =>
    match fs.find? (fun f => f.id = node) with
    | some f => sqrtFn ((f.x - hx) ^ 2 + (f.y - hy) ^ 2) * 10
    | none => 0

/-- Lexicographic order on `heapq` tuples `(f_score, node)`. -/
def tupLt (a b : WithTop ℚ × String) : Bool :=
  decide (a.1 < b.1) || (decide (a.1 = b.1) && decide (a.2 < b.2))

/-- `heapq.heappop`: extract a minimal tuple (heap order is irrelevant to
the popped value, the tuple order being total). -/
def popMin : List (WithTop ℚ × String) → Option ((WithTop ℚ × String) × List (WithTop ℚ × String))
  | [] => none
  | x :: xs =>
    match popMin xs with
    | none => some (x, [])
    | some (m, rest) => if tupLt m x then some (m, x :: rest) else some (x, m :: rest)

/-- Replace the first open-set tuple for node `n` by `(f, n)` (source lines
445–451); `none` when `n` has no tuple. -/
def replaceFirst : List (WithTop ℚ × String) → WithTop ℚ → String →
    Option (List (WithTop ℚ × String))
  | [], _, _ => none
  | e :: rest, f, n =>
    if e.2 = n then some ((f, n) :: rest)
    else
      match replaceFirst rest f n with
      | some r => some (e :: r)
      | none => none

/-- The open-set update of source lines 444–454: overwrite the node's tuple
if present, `heapq.heappush` otherwise (`heapify` only permutes the heap and
cannot change future popped values). -/
def pushOrReplace (os : List (WithTop ℚ × String)) (f : WithTop ℚ) (n : String) :
    List (WithTop ℚ × String) :=
  match replaceFirst os f n with
  | some r => r
  | none => os ++ [(f, n)]

/-- One neighbor relaxation (source lines 423–454) over state
`(open_set, came_from, g_score)`: `g_score` is a total map with `⊤` for
never-assigned nodes (`float("inf")` in the source), `came_from` a partial
map, and the freshly written `f_score[neighbor]` is inlined at its only
read. -/
def relaxNeighbor (EG : Graph) (h : String → ℚ) (cur : String)
    (st : List (WithTop ℚ × String) × (String → Option String) × (String → WithTop ℚ))
    (nb : String) :
    List (WithTop ℚ × String) × (String → Option String) × (String → WithTop ℚ) :=
  let data := (edgeBetween EG cur nb).getD ⟨none, none, none⟩
  let edgeWeight := data.distance.getD 1
  let condition := data.condition.getD 5
  let adjusted := edgeWeight * (2 - condition / 10)
  let tg := st.2.2 cur + (adjusted : WithTop ℚ)
  if tg < st.2.2 nb then
    (pushOrReplace st.1 (tg + (h nb : WithTop ℚ)) nb,
     fun x => if x = nb then some cur else st.2.1 x,
     fun x => if x = nb then tg else st.2.2 x)
  else st

/-- The A* main loop (source lines 330–454), fuel-bounded.  `none` means the
fuel ran out (the source loop would keep iterating); `some none` is the
open-set-exhausted fall-through of line 457; `some (some cf)` is the
target-popped exit of line 334, returning the `came_from` map. -/
def aStarLoop (EG : Graph) (targetId : String) (h : String → ℚ) :
    ℕ → List (WithTop ℚ × String) → (String → Option String) →
    (String → WithTop ℚ) → Option (Option (String → Option String))
  | 0, _, _, _ => none
  | fuel + 1, openSet, cameFrom, gScore =>
    match popMin openSet with
    | none => some none
    | some (cur, rest) =>
      if cur.2 = targetId then some (some cameFrom)
      else
        let st := (adj EG cur.2).foldl (relaxNeighbor EG h cur.2) (rest, cameFrom, gScore)
        aStarLoop EG targetId h fuel st.1 st.2.1 st.2.2

/-- Path reconstruction (source lines 336–340), fuel-bounded against
`came_from` cycles: prepend predecessors until a node without one. -/
def reconstruct (cameFrom : String → Option String) :
    ℕ → String → List String → Option (List String)
  | 0, _, _ => none
  | fuel + 1, cur, acc =>
    match cameFrom cur with
    | some prev => reconstruct cameFrom fuel prev (prev :: acc)
    | none => some acc

/-- Reported per-edge emergency travel time in minutes (source lines
352–366): `(distance / (80 * (1 + condition/10 * 0.5))) * 60`, with
`distance` defaulting to `0` and `condition` to `5`, read from the routed
graph\'s edge data. -/
def edgeTime (EG : Graph) (u v : String) : ℚ :=
  match edgeBetween EG u v with
  | some data =>
    let distance := data.distance.getD 0
    let condition := data.condition.getD 5
    distance / (80 * (1 + condition / 10 * (5 / 10))) * 60
  | none => 0

/-- Sum of reported per-edge times over the consecutive pairs of a path. -/
def pathTimeSum (EG : Graph) : List String → ℚ
  | u :: v :: rest => edgeTime EG u v + pathTimeSum EG (v :: rest)
  | _ => 0

/-- The value `run_a_star` returns: the failure tuples
`(None, float("inf"), [], {"error": msg})` or a found path with its summed
travel time and the standard-routing comparison time of lines 384–392. -/
inductive AStarResult where
  | failure (msg : String)
  | success (path : List String) (travel_time : ℚ) (std_time : WithTop ℚ)
deriving DecidableEq

/-- `run_a_star` (source lines 202–457).  `targetHospital = none` models a
falsy `target_hospital`; `sqrtFn` stands for `math.sqrt`; `fuel` bounds the
A* iterations (outer `none` = fuel exhausted, a model artifact only).
`Except` errors are uncaught Python exceptions (`NodeNotFound` from the
line-385 `nx.shortest_path` call when an endpoint is not a node). -/
def run_a_star (G : Graph) (src : String) (targetHospital : Option String)
    (ns : List Neighborhood) (fs : List Facility) (sqrtFn : ℚ → ℚ)
    (minCond : ℚ) (fuel : ℕ) : Option (Except PyErr AStarResult) :=
  let EG := emergencyGraph G minCond src
  let targetRes : Except PyErr (Option String) :=
    match targetHospital with
    | some t => .ok (some t)
    | none => nearestHospital EG src
  match targetRes with
  | .error e => some (.error e)
  | .ok tOpt =>
    match tOpt, facilityFind fs tOpt with
    | some tid, some hosp =>
      let h := heuristic sqrtFn ns fs hosp.x hosp.y
      match aStarLoop EG tid h fuel [((0 : WithTop ℚ), src)] (fun _ => none)
          (fun n => if n = src then (0 : WithTop ℚ) else ⊤) with
      | none => none
      | some none => some (.ok (.failure "No path found to hospital"))
      | some (some cameFrom) =>
        match reconstruct cameFrom (G.nodes.length + 1) tid [tid] with
        | none => none
        | some path =>
          if src ∈ G.nodes ∧ tid ∈ G.nodes then
            let total_time := (path.zip path.tail).foldl
              (fun acc uv => acc + edgeTime EG uv.1 uv.2) 0
            let stdDist := minPathCost (distWeight G) (simplePaths G src tid)
            some (.ok (.success path total_time
              (WithTop.map (fun d => d / 50 * 60) stdDist)))
          else some (.error .nodeNotFound)
    | _, _ => some (.ok (.failure "Hospital not found"))

/-- The C1 failing input: `N1` joined to hospital `F9` by a good road and to
hospital `F10` by a poor one. -/
def c1Graph : Graph :=
  { nodes := ["N1", "F9", "F10"],
    edges := [("N1", "F9", ⟨some 1, none, some 10⟩),
              ("N1", "F10", ⟨some 1, none, some 3⟩)] }

def c1Facilities : List Facility :=
  [⟨"F10", "Hospital", 0, 0⟩]

/-- The C7 counterexample input: a single poor road from `N1` to hospital
`F9`, which the penalty fallback re-weights. -/
def c7Graph : Graph :=
  { nodes := ["N1", "F9"],
    edges := [("N1", "F9", ⟨some 10, none, some 3⟩)] }

def c7Facilities : List Facility :=
  [⟨"F9", "Hospital", 0, 0⟩]

/-! ## Supporting lemmas -/

theorem chain_reflTransGen {α : Type} (R : α → α → Prop) :
    ∀ (p : List α) (u t : α), List.Chain' R p → p.head? = some u →
      p.getLast? = some t → Relation.ReflTransGen R u t := by
  intro p
  induction p with
  | nil => intro u t _ hh _; cases hh
  | cons a q ih =>
    intro u t hch hh hl
    have hu : u = a := by
      simpa using hh.symm
    subst hu
    cases q with
    | nil =>
      have ht : t = u := by simpa using hl.symm
      subst ht
      exact Relation.ReflTransGen.refl
    | cons b q2 =>
      have hr := (List.chain'_cons.mp hch).1
      have hc2 := (List.chain'_cons.mp hch).2
      have hl2 : (b :: q2).getLast? = some t := by
        simpa [List.getLast?_cons_cons] using hl
      exact Relation.ReflTransGen.head hr (ih b t hc2 rfl hl2)

theorem reflTransGen_walk {α : Type} (R : α → α → Prop) (u t : α)
    (h : Relation.ReflTransGen R u t) :
    ∃ p : List α, List.Chain' R p ∧ p.head? = some u ∧ p.getLast? = some t := by
  induction h with
  | refl => exact ⟨[u], List.chain'_singleton u, rfl, rfl⟩
  | tail hab hbc ih =>
    rename_i b c
    obtain ⟨p, hch, hh, hl⟩ := ih
    refine ⟨p ++ [c], ?_, ?_, ?_⟩
    · refine List.Chain'.append hch (List.chain'_singleton c) ?_
      intro x hx y hy
      have hxb : b = x := by rw [hl] at hx; simpa using hx
      have hyc : c = y := by simpa using hy
      rw [← hxb, ← hyc]
      exact hbc
    · rcases p with _ | ⟨a2, p2⟩
      · cases hh
      · simpa using hh
    · exact List.getLast?_concat p

theorem walk_cut {α : Type} (R : α → α → Prop) (a : α) :
    ∀ (p : List α), List.Duplicate a p → List.Chain' R p →
    ∃ q, q.head? = p.head? ∧ q.getLast? = p.getLast? ∧ List.Chain' R q ∧
      q.length < p.length ∧ q ⊆ p := by
  intro p hdup
  induction hdup with
  | cons_mem hmem =>
    rename_i l
    intro hch
    obtain ⟨l₁, l₂, rfl⟩ := List.append_of_mem hmem
    have hsfx : (a :: l₂) <:+ (a :: (l₁ ++ a :: l₂)) := by
      refine ⟨a :: l₁, ?_⟩
      simp
    refine ⟨a :: l₂, rfl, ?_, hch.suffix hsfx, ?_, ?_⟩
    · have heq : a :: (l₁ ++ a :: l₂) = (a :: l₁) ++ (a :: l₂) := by simp
      rw [heq, List.getLast?_append]
      cases hgl : (a :: l₂).getLast? with
      | none => exact absurd hgl (by simp)
      | some z => rfl
    · simp only [List.length_cons, List.length_append]
      omega
    · exact hsfx.subset
  | cons_duplicate hdup ih =>
    rename_i y l
    intro hch
    obtain ⟨q, hh, hl, hqch, hlen, hsub⟩ := ih (hch.tail)
    have hlne : l ≠ [] := by
      intro hc
      subst hc
      cases hdup
    have hqne : q ≠ [] := by
      intro hc
      subst hc
      rw [List.head?_eq_none_iff.mpr rfl] at hh
      exact hlne (List.head?_eq_none_iff.mp hh.symm)
    refine ⟨y :: q, rfl, ?_, ?_, by simpa using Nat.succ_lt_succ hlen, ?_⟩
    · rcases q with _ | ⟨b, q2⟩
      · exact absurd rfl hqne
      · rw [List.getLast?_cons_cons, hl]
        rcases l with _ | ⟨c, l2⟩
        · exact absurd rfl hlne
        · rw [List.getLast?_cons_cons]
    · refine List.chain'_cons'.mpr ⟨?_, hqch⟩
      intro z hz
      rw [hh] at hz
      have := (List.chain'_cons'.mp hch).1
      exact this z hz
    · intro x hx
      rcases List.mem_cons.mp hx with h | h
      · exact h ▸ List.mem_cons_self y l
      · exact List.mem_cons_of_mem y (hsub h)

theorem walk_to_nodup_walk {α : Type} (R : α → α → Prop) :
    ∀ (n : ℕ) (p : List α), p.length ≤ n → List.Chain' R p →
    ∃ q, q.head? = p.head? ∧ q.getLast? = p.getLast? ∧ List.Chain' R q ∧
      q.Nodup ∧ q ⊆ p := by
  intro n
  induction n with
  | zero =>
    intro p hlen hch
    have : p = [] := List.length_eq_zero.mp (Nat.le_zero.mp hlen)
    subst this
    exact ⟨[], rfl, rfl, trivial, List.nodup_nil, fun x hx => hx⟩
  | succ n ih =>
    intro p hlen hch
    by_cases hnd : p.Nodup
    · exact ⟨p, rfl, rfl, hch, hnd, fun x hx => hx⟩
    · obtain ⟨a, hdup⟩ := List.exists_duplicate_iff_not_nodup.mpr hnd
      obtain ⟨q, hh, hl, hqch, hlen2, hsub⟩ := walk_cut R a p hdup hch
      obtain ⟨q2, hh2, hl2, hq2ch, hnd2, hsub2⟩ := ih q (by omega) hqch
      exact ⟨q2, hh2.trans hh, hl2.trans hl, hq2ch, hnd2, fun x hx => hsub (hsub2 hx)⟩

theorem mem_adj_hasEdge {G : Graph} {u w : String} (h : w ∈ adj G u) :
    hasEdge G u w := by
  unfold adj at h
  obtain ⟨e, he, hima⟩ := List.mem_filterMap.mp h
  by_cases h1 : e.1 = u
  · rw [if_pos h1] at hima
    exact ⟨e, he, Or.inl ⟨h1, Option.some.injEq .. ▸ hima⟩⟩
  · rw [if_neg h1] at hima
    by_cases h2 : e.2.1 = u
    · rw [if_pos h2] at hima
      exact ⟨e, he, Or.inr ⟨Option.some.injEq .. ▸ hima, h2⟩⟩
    · rw [if_neg h2] at hima
      cases hima

theorem hasEdge_mem_adj {G : Graph} {u w : String} (h : hasEdge G u w) :
    w ∈ adj G u := by
  obtain ⟨e, he, hor⟩ := h
  unfold adj
  refine List.mem_filterMap.mpr ⟨e, he, ?_⟩
  rcases hor with ⟨h1, h2⟩ | ⟨h1, h2⟩
  · rw [if_pos h1, h2]
  · by_cases hu : e.1 = u
    · rw [if_pos hu]
      rw [h1] at hu
      rw [h2, ← hu]
    · rw [if_neg hu, if_pos h2, h1]

theorem hasEdge_symm {G : Graph} {u w : String} (h : hasEdge G u w) :
    hasEdge G w u := by
  obtain ⟨e, he, hor⟩ := h
  exact ⟨e, he, hor.symm⟩

theorem hasEdge_right_mem {G : Graph} {u w : String}
    (hwf : ∀ e ∈ G.edges, e.1 ∈ G.nodes ∧ e.2.1 ∈ G.nodes)
    (h : hasEdge G u w) : w ∈ G.nodes := by
  obtain ⟨e, he, hor⟩ := h
  rcases hor with ⟨_, h2⟩ | ⟨h1, _⟩
  · exact h2 ▸ (hwf e he).2
  · exact h1 ▸ (hwf e he).1

theorem walk_nodes_mem {G : Graph}
    (hwf : ∀ e ∈ G.edges, e.1 ∈ G.nodes ∧ e.2.1 ∈ G.nodes) :
    ∀ (p : List String), List.Chain' (fun x y => hasEdge G x y) p →
    ∀ u, p.head? = some u → u ∈ G.nodes → ∀ x ∈ p, x ∈ G.nodes := by
  intro p
  induction p with
  | nil => intro _ u _ _ x hx; cases hx
  | cons a q ih =>
    intro hch u hh hu x hx
    have hua : u = a := by simpa using hh.symm
    subst hua
    rcases List.mem_cons.mp hx with h | h
    · exact h ▸ hu
    · cases q with
      | nil => cases h
      | cons b q2 =>
        have hr := (List.chain'_cons.mp hch).1
        exact ih (List.chain'_cons.mp hch).2 b rfl (hasEdge_right_mem hwf hr) x h

theorem pathsAux_sound {G : Graph} {t : String} :
    ∀ (n : ℕ) (u : String) (vis : List String) (p : List String),
      p ∈ pathsAux G t n u vis →
      List.Chain' (fun x y => hasEdge G x y) p ∧ p.head? = some u ∧
        p.getLast? = some t := by
  intro n
  induction n with
  | zero =>
    intro u vis p hp
    unfold pathsAux at hp
    by_cases h : u = t
    · rw [if_pos h] at hp
      have : p = [u] := by simpa using hp
      subst this
      exact ⟨List.chain'_singleton u, rfl, by simp [h]⟩
    · rw [if_neg h] at hp
      cases hp
  | succ n ih =>
    intro u vis p hp
    unfold pathsAux at hp
    by_cases h : u = t
    · rw [if_pos h] at hp
      have : p = [u] := by simpa using hp
      subst this
      exact ⟨List.chain'_singleton u, rfl, by simp [h]⟩
    · rw [if_neg h] at hp
      obtain ⟨w, hw, hpw⟩ := List.mem_flatMap.mp hp
      obtain ⟨q, hq, rfl⟩ := List.mem_map.mp hpw
      obtain ⟨hch, hh, hl⟩ := ih w (w :: vis) q hq
      have hadj : w ∈ adj G u := (List.mem_filter.mp hw).1
      refine ⟨?_, rfl, ?_⟩
      · refine List.chain'_cons'.mpr ⟨?_, hch⟩
        intro y hy
        rw [hh] at hy
        have : w = y := by simpa using hy
        exact this ▸ mem_adj_hasEdge hadj
      · rcases q with _ | ⟨b, q2⟩
        · cases hh
        · rw [List.getLast?_cons_cons]
          exact hl

theorem pathsAux_complete {G : Graph} {t : String} :
    ∀ (n : ℕ) (u : String) (vis : List String) (rest : List String),
      List.Chain' (fun x y => hasEdge G x y) (u :: rest) →
      (u :: rest).getLast? = some t → (u :: rest).Nodup →
      (∀ x ∈ rest, x ∉ vis) → rest.length ≤ n →
      (u :: rest) ∈ pathsAux G t n u vis := by
  intro n
  induction n with
  | zero =>
    intro u vis rest hch hl hnd hvis hlen
    have hrest : rest = [] := List.length_eq_zero.mp (Nat.le_zero.mp hlen)
    subst hrest
    have hut : u = t := by simpa using hl
    unfold pathsAux
    rw [if_pos hut]
    simp
  | succ n ih =>
    intro u vis rest hch hl hnd hvis hlen
    by_cases hut : u = t
    · have hrest : rest = [] := by
        rcases rest with _ | ⟨b, rest2⟩
        · rfl
        · exfalso
          have hl2 : (b :: rest2).getLast? = some t := by
            rw [List.getLast?_cons_cons] at hl
            exact hl
          have htmem : t ∈ b :: rest2 := by
            obtain ⟨hne, hteq⟩ := List.mem_getLast?_eq_getLast hl2
            exact hteq ▸ List.getLast_mem hne
          have hnotin : u ∉ b :: rest2 := (List.nodup_cons.mp hnd).1
          exact hnotin (hut ▸ htmem)
      subst hrest
      unfold pathsAux
      rw [if_pos hut]
      simp
    · rcases rest with _ | ⟨w, rest2⟩
      · exact absurd (by simpa using hl) hut
      · have hr := (List.chain'_cons.mp hch).1
        have hmemfil : w ∈ (adj G u).filter (fun z => !(vis.contains z)) := by
          refine List.mem_filter.mpr ⟨hasEdge_mem_adj hr, ?_⟩
          have : w ∉ vis := hvis w (List.mem_cons_self w rest2)
          simpa using this
        have hrec : (w :: rest2) ∈ pathsAux G t n w (w :: vis) := by
          refine ih w (w :: vis) rest2 (List.chain'_cons.mp hch).2 ?_ ?_ ?_ ?_
          · rw [List.getLast?_cons_cons] at hl
            exact hl
          · exact (List.nodup_cons.mp hnd).2
          · intro x hx
            intro hc
            rcases List.mem_cons.mp hc with h | h
            · have hwnot : w ∉ rest2 := (List.nodup_cons.mp (List.nodup_cons.mp hnd).2).1
              exact hwnot (h ▸ hx)
            · exact hvis x (List.mem_cons_of_mem w hx) h
          · simpa using Nat.le_of_succ_le_succ hlen
        unfold pathsAux
        rw [if_neg hut]
        refine List.mem_flatMap.mpr ⟨w, hmemfil, ?_⟩
        exact List.mem_map.mpr ⟨w :: rest2, hrec, rfl⟩

theorem conn_of_simplePaths_ne_nil {G : Graph} {o d : String}
    (h : simplePaths G o d ≠ []) : ConnG G o d := by
  obtain ⟨p, hp⟩ := List.exists_mem_of_ne_nil _ h
  obtain ⟨hch, hh, hl⟩ := pathsAux_sound _ _ _ _ hp
  exact chain_reflTransGen _ p o d hch hh hl

theorem simplePaths_ne_nil_of_conn {G : Graph} {o d : String}
    (hwf : ∀ e ∈ G.edges, e.1 ∈ G.nodes ∧ e.2.1 ∈ G.nodes)
    (ho : o ∈ G.nodes) (h : ConnG G o d) : simplePaths G o d ≠ [] := by
  obtain ⟨p, hch, hh, hl⟩ := reflTransGen_walk _ o d h
  obtain ⟨q, hh2, hl2, hqch, hnd, hsub⟩ :=
    walk_to_nodup_walk (fun x y => hasEdge G x y) p.length p le_rfl hch
  rw [hh] at hh2
  rw [hl] at hl2
  rcases q with _ | ⟨u, rest⟩
  · cases hh2
  · have hu0 : u = o := by simpa using hh2
    have hu : o = u := hu0.symm
    subst hu
    have hall : ∀ x ∈ o :: rest, x ∈ G.nodes :=
      walk_nodes_mem hwf _ hqch o rfl ho
    have hlen : (o :: rest).length ≤ G.nodes.length := by
      have hcard : (o :: rest).toFinset.card = (o :: rest).length :=
        List.toFinset_card_of_nodup hnd
      have hsubf : (o :: rest).toFinset ⊆ G.nodes.toFinset := by
        intro x hx
        exact List.mem_toFinset.mpr (hall x (List.mem_toFinset.mp hx))
      calc (o :: rest).length = (o :: rest).toFinset.card := hcard.symm
        _ ≤ G.nodes.toFinset.card := Finset.card_le_card hsubf
        _ ≤ G.nodes.length := List.toFinset_card_le _
    have hrlen : rest.length ≤ G.nodes.length := by
      simp only [List.length_cons] at hlen
      omega
    have hvis : ∀ x ∈ rest, x ∉ ([o] : List String) := by
      intro x hx hc
      have hxo : x = o := by simpa using hc
      exact (List.nodup_cons.mp hnd).1 (hxo ▸ hx)
    have hmem := pathsAux_complete G.nodes.length o [o] rest hqch hl2 hnd hvis hrlen
    exact List.ne_nil_of_mem hmem

theorem argminPath_foldl_some {w : String → String → ℚ} :
    ∀ (ps : List (List String)) (b : List String),
      ps.foldl
        (fun best p =>
          match best with
          | none => some p
          | some b2 => if pathCost w p < pathCost w b2 then some p else best)
        (some b) ≠ none := by
  intro ps
  induction ps with
  | nil => intro b h; exact Option.noConfusion h
  | cons p t ih =>
    intro b
    simp only [List.foldl_cons]
    by_cases hc : pathCost w p < pathCost w b
    · rw [if_pos hc]
      exact ih p
    · rw [if_neg hc]
      exact ih b

theorem argminPath_eq_none_iff {w : String → String → ℚ} (ps : List (List String)) :
    argminPath w ps = none ↔ ps = [] := by
  constructor
  · intro h
    rcases ps with _ | ⟨p, t⟩
    · rfl
    · exfalso
      unfold argminPath at h
      rw [List.foldl_cons] at h
      exact argminPath_foldl_some t p h
  · intro h
    subst h
    rfl

theorem find?_eq_head?_filter {α : Type} (p : α → Bool) (l : List α) :
    l.find? p = (l.filter p).head? := by
  induction l with
  | nil => rfl
  | cons a t ih =>
    by_cases h : p a
    · rw [List.find?_cons_of_pos _ h, List.filter_cons_of_pos h]
      rfl
    · rw [List.find?_cons_of_neg _ h, List.filter_cons_of_neg h, ih]

theorem reverse_find?_of_subsingleton {α : Type} (p : α → Bool) (l : List α)
    (h : (l.filter p).length ≤ 1) : l.reverse.find? p = l.find? p := by
  rw [find?_eq_head?_filter, find?_eq_head?_filter, List.filter_reverse, List.head?_reverse]
  rcases hf : l.filter p with _ | ⟨a, t⟩
  · rfl
  · rw [hf] at h
    simp only [List.length_cons] at h
    have ht : t = [] := by
      cases t with
      | nil => rfl
      | cons b t2 => simp at h
    subst ht
    rfl

theorem dictStep_eval (m₀ : String × String → Option String)
    (kv : String × List (String × ℚ)) (u v : String) :
    (if (u, v) = ((roadIdEnds kv.1).2, (roadIdEnds kv.1).1) then some kv.1
     else if (u, v) = ((roadIdEnds kv.1).1, (roadIdEnds kv.1).2) then some kv.1
     else m₀ (u, v)) =
    (if roadIdEnds kv.1 = (u, v) ∨ roadIdEnds kv.1 = (v, u) then some kv.1
     else m₀ (u, v)) := by
  rcases hends : roadIdEnds kv.1 with ⟨e1, e2⟩
  simp only [hends]
  by_cases h1 : (u, v) = (e2, e1)
  · have hu : u = e2 := congrArg Prod.fst h1
    have hv : v = e1 := congrArg Prod.snd h1
    have hx : (e1, e2) = (v, u) := by rw [hu, hv]
    rw [if_pos h1, if_pos (Or.inr hx)]
  · by_cases h2 : (u, v) = (e1, e2)
    · have hx : (e1, e2) = (u, v) := h2.symm
      rw [if_neg h1, if_pos h2, if_pos (Or.inl hx)]
    · have hc1 : ¬ (e1, e2) = (u, v) := fun hc => h2 hc.symm
      have hc2 : ¬ (e1, e2) = (v, u) := by
        intro hc
        have hu : e1 = v := congrArg Prod.fst hc
        have hv : e2 = u := congrArg Prod.snd hc
        exact h1 (by rw [hu, hv])
      rw [if_neg h1, if_neg h2, if_neg (not_or.mpr ⟨hc1, hc2⟩)]

theorem roadIdMap_eq_find? (tf : List (String × List (String × ℚ))) (u v : String) :
    roadIdMap tf (u, v) =
      ((tf.reverse.find? (fun kv => roadIdEnds kv.1 = (u, v) ∨ roadIdEnds kv.1 = (v, u))).map
        (fun kv => kv.1)) := by
  unfold roadIdMap
  suffices h : ∀ (m₀ : String × String → Option String),
      tf.foldl
        (fun m kv =>
          let ends := roadIdEnds kv.1
          fun k =>
            if k = (ends.2, ends.1) then some kv.1
            else if k = (ends.1, ends.2) then some kv.1
            else m k)
        m₀ (u, v) =
      match tf.reverse.find? (fun kv => roadIdEnds kv.1 = (u, v) ∨ roadIdEnds kv.1 = (v, u)) with
      | some kv => some kv.1
      | none => m₀ (u, v) by
    rw [h]
    cases hx : tf.reverse.find?
        (fun kv => decide (roadIdEnds kv.1 = (u, v) ∨ roadIdEnds kv.1 = (v, u))) <;>
      rfl
  induction tf with
  | nil => intro m₀; rfl
  | cons kv rest ih =>
    intro m₀
    rw [List.foldl_cons, ih, List.reverse_cons, List.find?_append]
    cases hr : rest.reverse.find?
        (fun kv => decide (roadIdEnds kv.1 = (u, v) ∨ roadIdEnds kv.1 = (v, u))) with
    | some kv2 => simp [hr]
    | none =>
      rw [Option.none_or]
      show (if (u, v) = ((roadIdEnds kv.1).2, (roadIdEnds kv.1).1) then some kv.1
        else if (u, v) = ((roadIdEnds kv.1).1, (roadIdEnds kv.1).2) then some kv.1
        else m₀ (u, v)) = _
      rw [dictStep_eval]
      by_cases hp : roadIdEnds kv.1 = (u, v) ∨ roadIdEnds kv.1 = (v, u)
      · rw [if_pos hp, List.find?_cons_of_pos _ (by simpa using hp)]
      · rw [if_neg hp, List.find?_cons_of_neg _ (by simpa using hp), List.find?_nil]

theorem find?_key_of_nodup (tf : List (String × List (String × ℚ)))
    (hkeys : (tf.map (fun kv => kv.1)).Nodup) (kv : String × List (String × ℚ))
    (hmem : kv ∈ tf) : tf.find? (fun x => x.1 = kv.1) = some kv := by
  induction tf with
  | nil => cases hmem
  | cons a t ih =>
    simp only [List.map_cons, List.nodup_cons] at hkeys
    rcases List.mem_cons.mp hmem with h | h
    · subst h
      exact List.find?_cons_of_pos _ (by simp)
    · have hne : ¬ a.1 = kv.1 := by
        intro hc
        exact hkeys.1 (hc ▸ List.mem_map_of_mem (fun x => x.1) h)
      rw [List.find?_cons_of_neg _ (by simpa using hne)]
      exact ih hkeys.2 h

/-- Division-chain algebra of the weight formula (source line 78). -/
theorem weight_algebra (d t c : ℚ) (ht : t ≠ 0) :
    d / (60 * (1 / t) * (1 / c)) * 60 = d * t * c := by
  by_cases hc : c = 0
  · subst hc; simp
  · field_simp
    ring

/-- C3 — `run_dijkstra` assigns every edge the travel-time weight
`distance * (1 + 0.15 * (flow/capacity)^4) * (1.2 - condition/10)`, where
`flow` is the traffic-flow entry for the chosen time bucket looked up under
either endpoint order and defaulting to `0` when the road or the bucket has
no data.  Hypotheses: positive capacity (the source substitutes ratio `1.0`
for nonpositive capacities), dictionary keys unique (Python `dict`), and at
most one road id matching the unordered pair `{u, v}`. -/
theorem dijkstra_edge_weight_is_bpr_formula
    (tf : List (String × List (String × ℚ))) (bucket u v : String) (data : EdgeData)
    (hcap : 0 < data.capacity.getD 3000)
    (hkeys : (tf.map (fun kv => kv.1)).Nodup)
    (huniq : (tf.filter
      (fun kv => roadIdEnds kv.1 = (u, v) ∨ roadIdEnds kv.1 = (v, u))).length ≤ 1) :
    dijkstraEdgeWeight tf bucket u v data =
      data.distance.getD 1 *
        (1 + (15/100) * (symFlow tf u v bucket / data.capacity.getD 3000) ^ 4) *
        ((12/10) - data.condition.getD 5 / 10) := by
  have hmap := roadIdMap_eq_find? tf u v
  rw [reverse_find?_of_subsingleton _ _ huniq] at hmap
  have hswap : (fun (kv : String × List (String × ℚ)) =>
      decide (roadIdEnds kv.1 = (v, u) ∨ roadIdEnds kv.1 = (u, v)))
      = (fun kv => decide (roadIdEnds kv.1 = (u, v) ∨ roadIdEnds kv.1 = (v, u))) := by
    funext kv
    exact decide_eq_decide.mpr or_comm
  have hmap2 := roadIdMap_eq_find? tf v u
  rw [hswap, reverse_find?_of_subsingleton _ _ huniq] at hmap2
  have htf : trafficFactor tf bucket u v data =
      1 + (15/100) * (symFlow tf u v bucket / data.capacity.getD 3000) ^ 4 := by
    unfold trafficFactor bprFactor symFlow
    rcases hfind : tf.find?
        (fun kv => decide (roadIdEnds kv.1 = (u, v) ∨ roadIdEnds kv.1 = (v, u))) with _ | kv
    · have hfind2 : List.find? (fun kv => decide (roadIdEnds kv.1 = (u, v)) ||
          decide (roadIdEnds kv.1 = (v, u))) tf = none := by
        simpa using hfind
      rw [hfind] at hmap hmap2
      simp only [Option.map_none'] at hmap hmap2
      simp [hmap, hmap2, hfind2, zero_pow]
    · rw [hfind] at hmap
      simp only [Option.map_some'] at hmap
      have hmem : kv ∈ tf := List.mem_of_find?_eq_some hfind
      have hkv := find?_key_of_nodup tf hkeys kv hmem
      simp only [hmap, hkv, hfind]
      rw [if_pos hcap]
  have hcf : conditionFactor data = (12/10) - data.condition.getD 5 / 10 := rfl
  have htpos : (0:ℚ) < trafficFactor tf bucket u v data := by
    rw [htf]
    have h4 : (0:ℚ) ≤ (symFlow tf u v bucket / data.capacity.getD 3000) ^ 4 := by
      have hsq : ((symFlow tf u v bucket / data.capacity.getD 3000) ^ 2) ^ 2 =
          (symFlow tf u v bucket / data.capacity.getD 3000) ^ 4 := by ring
      rw [← hsq]
      positivity
    nlinarith
  unfold dijkstraEdgeWeight
  rw [weight_algebra _ _ _ (ne_of_gt htpos), htf, hcf]

/-- Witness for C3 at a concrete edge and traffic table. -/
theorem dijkstra_edge_weight_is_bpr_formula_witness :
    (0:ℚ) < (EdgeData.mk (some 2) (some 1000) (some 8)).capacity.getD 3000 ∧
    dijkstraEdgeWeight [("1-2", [("morning_peak", 500)])] "morning_peak" "1" "2"
        (EdgeData.mk (some 2) (some 1000) (some 8)) =
      (EdgeData.mk (some 2) (some 1000) (some 8)).distance.getD 1 *
        (1 + (15/100) * (symFlow [("1-2", [("morning_peak", 500)])] "1" "2" "morning_peak" /
          (EdgeData.mk (some 2) (some 1000) (some 8)).capacity.getD 3000) ^ 4) *
        ((12/10) - (EdgeData.mk (some 2) (some 1000) (some 8)).condition.getD 5 / 10) :=
  ⟨by norm_num,
   dijkstra_edge_weight_is_bpr_formula [("1-2", [("morning_peak", 500)])] "morning_peak" "1" "2"
     (EdgeData.mk (some 2) (some 1000) (some 8)) (by norm_num) (by decide) (by decide)⟩

theorem bumpFun_fst (rid bucket : String) (δ : ℚ)
    (kv : String × List (String × ℚ)) :
    ((fun kv : String × List (String × ℚ) =>
      if kv.1 = rid then
        (kv.1, kv.2.map (fun bv => if bv.1 = bucket then (bv.1, bv.2 + δ) else bv))
      else kv) kv).1 = kv.1 := by
  dsimp only
  by_cases h : kv.1 = rid
  · rw [if_pos h]
  · rw [if_neg h]

theorem roadIdMap_bumpFlow (tf : List (String × List (String × ℚ)))
    (rid bucket : String) (δ : ℚ) :
    roadIdMap (bumpFlow tf rid bucket δ) = roadIdMap tf := by
  funext k
  rcases k with ⟨u, v⟩
  rw [roadIdMap_eq_find?, roadIdMap_eq_find?]
  unfold bumpFlow
  rw [← List.map_reverse, List.find?_map]
  have hpred : ((fun kv : String × List (String × ℚ) =>
      decide (roadIdEnds kv.1 = (u, v) ∨ roadIdEnds kv.1 = (v, u))) ∘
      (fun kv : String × List (String × ℚ) =>
        if kv.1 = rid then
          (kv.1, kv.2.map (fun bv => if bv.1 = bucket then (bv.1, bv.2 + δ) else bv))
        else kv)) =
      (fun kv : String × List (String × ℚ) =>
        decide (roadIdEnds kv.1 = (u, v) ∨ roadIdEnds kv.1 = (v, u))) := by
    funext kv
    simp only [Function.comp]
    rw [bumpFun_fst]
  rw [hpred, Option.map_map]
  have hfst : ((fun kv : String × List (String × ℚ) => kv.1) ∘
      (fun kv : String × List (String × ℚ) =>
        if kv.1 = rid then
          (kv.1, kv.2.map (fun bv => if bv.1 = bucket then (bv.1, bv.2 + δ) else bv))
        else kv)) = (fun kv : String × List (String × ℚ) => kv.1) := by
    funext kv
    simp only [Function.comp]
    rw [bumpFun_fst]
  rw [hfst]

theorem qGetD_nonneg (d : List (String × ℚ)) (k : String)
    (h : ∀ bv ∈ d, 0 ≤ bv.2) : 0 ≤ qGetD d k 0 := by
  unfold qGetD
  cases hf : d.find? (fun kv => kv.1 = k) with
  | none => exact le_refl 0
  | some bv => exact h bv (List.mem_of_find?_eq_some hf)

theorem qGetD_bump_le (d : List (String × ℚ)) (bucket : String) (δ : ℚ) (hδ : 0 ≤ δ) :
    qGetD d bucket 0 ≤
      qGetD (d.map (fun bv => if bv.1 = bucket then (bv.1, bv.2 + δ) else bv)) bucket 0 := by
  unfold qGetD
  rw [List.find?_map]
  have hpred : ((fun kv : String × ℚ => decide (kv.1 = bucket)) ∘
      (fun bv : String × ℚ => if bv.1 = bucket then (bv.1, bv.2 + δ) else bv)) =
      (fun kv : String × ℚ => decide (kv.1 = bucket)) := by
    funext bv
    simp only [Function.comp]
    by_cases h : bv.1 = bucket
    · simp [h]
    · simp [h]
  rw [hpred]
  cases hf : d.find? (fun kv => decide (kv.1 = bucket)) with
  | none => exact le_refl 0
  | some bv =>
    have hb : bv.1 = bucket := by simpa using List.find?_some hf
    simp only [Option.map_some']
    rw [if_pos hb]
    show bv.2 ≤ bv.2 + δ
    linarith

theorem bprFactor_ge_one (tf : List (String × List (String × ℚ)))
    (bucket : String) (data : EdgeData) (roadId : String) :
    1 ≤ bprFactor tf bucket data roadId := by
  unfold bprFactor
  cases tf.find? (fun kv => kv.1 = roadId) with
  | none => exact le_refl 1
  | some kv =>
    have h4 : (0:ℚ) ≤ (if data.capacity.getD 3000 > 0 then
        qGetD kv.2 bucket 0 / data.capacity.getD 3000 else 1) ^ 4 := by
      have hsq : ∀ x : ℚ, x ^ 4 = (x ^ 2) ^ 2 := fun x => by ring
      rw [hsq]
      positivity
    dsimp only
    nlinarith

theorem trafficFactor_ge_one (tf : List (String × List (String × ℚ)))
    (bucket u v : String) (data : EdgeData) :
    1 ≤ trafficFactor tf bucket u v data := by
  unfold trafficFactor
  dsimp only
  cases roadIdMap tf (u, v) with
  | some roadId => exact bprFactor_ge_one tf bucket data roadId
  | none =>
    cases roadIdMap tf (v, u) with
    | some roadId => exact bprFactor_ge_one tf bucket data roadId
    | none => exact le_refl 1

theorem trafficFactor_pos (tf : List (String × List (String × ℚ)))
    (bucket u v : String) (data : EdgeData) :
    0 < trafficFactor tf bucket u v data :=
  lt_of_lt_of_le one_pos (trafficFactor_ge_one tf bucket u v data)

theorem bprFactor_bump_le (tf : List (String × List (String × ℚ)))
    (rid bucket : String) (data : EdgeData) (roadId : String) (δ : ℚ) (hδ : 0 ≤ δ)
    (hflows : ∀ kv ∈ tf, ∀ bv ∈ kv.2, 0 ≤ bv.2)
    (hcap : 0 < data.capacity.getD 3000) :
    bprFactor tf bucket data roadId ≤
      bprFactor (bumpFlow tf rid bucket δ) bucket data roadId := by
  unfold bprFactor bumpFlow
  rw [List.find?_map]
  have hpred : ((fun kv : String × List (String × ℚ) => decide (kv.1 = roadId)) ∘
      (fun kv : String × List (String × ℚ) =>
        if kv.1 = rid then
          (kv.1, kv.2.map (fun bv => if bv.1 = bucket then (bv.1, bv.2 + δ) else bv))
        else kv)) =
      (fun kv : String × List (String × ℚ) => decide (kv.1 = roadId)) := by
    funext kv
    simp only [Function.comp]
    rw [bumpFun_fst]
  rw [hpred]
  cases hf : tf.find? (fun kv => decide (kv.1 = roadId)) with
  | none => exact le_refl 1
  | some kv =>
    simp only [Option.map_some']
    have hmem : kv ∈ tf := List.mem_of_find?_eq_some hf
    have hf1 : 0 ≤ qGetD kv.2 bucket 0 := qGetD_nonneg _ _ (hflows kv hmem)
    have hle : qGetD kv.2 bucket 0 ≤
        qGetD ((if kv.1 = rid then
          (kv.1, kv.2.map (fun bv => if bv.1 = bucket then (bv.1, bv.2 + δ) else bv))
        else kv).2) bucket 0 := by
      by_cases hb : kv.1 = rid
      · rw [if_pos hb]
        exact qGetD_bump_le kv.2 bucket δ hδ
      · rw [if_neg hb]
    rw [if_pos hcap, if_pos hcap]
    have hr1 : 0 ≤ qGetD kv.2 bucket 0 / data.capacity.getD 3000 :=
      div_nonneg hf1 (le_of_lt hcap)
    have hrle := (div_le_div_iff_of_pos_right hcap).mpr hle
    have hpow := pow_le_pow_left₀ hr1 hrle 4
    linarith

theorem trafficFactor_bump_le (tf : List (String × List (String × ℚ)))
    (rid bucket u v : String) (data : EdgeData) (δ : ℚ) (hδ : 0 ≤ δ)
    (hflows : ∀ kv ∈ tf, ∀ bv ∈ kv.2, 0 ≤ bv.2)
    (hcap : 0 < data.capacity.getD 3000) :
    trafficFactor tf bucket u v data ≤
      trafficFactor (bumpFlow tf rid bucket δ) bucket u v data := by
  unfold trafficFactor
  dsimp only
  rw [roadIdMap_bumpFlow]
  cases roadIdMap tf (u, v) with
  | some roadId => exact bprFactor_bump_le tf rid bucket data roadId δ hδ hflows hcap
  | none =>
    cases roadIdMap tf (v, u) with
    | some roadId => exact bprFactor_bump_le tf rid bucket data roadId δ hδ hflows hcap
    | none => exact le_refl 1

theorem dijkstraEdgeWeight_eq_prod (tf : List (String × List (String × ℚ)))
    (bucket u v : String) (data : EdgeData) :
    dijkstraEdgeWeight tf bucket u v data =
      data.distance.getD 1 * trafficFactor tf bucket u v data * conditionFactor data := by
  unfold dijkstraEdgeWeight
  exact weight_algebra _ _ _ (ne_of_gt (trafficFactor_pos tf bucket u v data))

theorem dijkstraWeight_bump_le (G : Graph) (tf : List (String × List (String × ℚ)))
    (rid bucket : String) (δ : ℚ) (hδ : 0 ≤ δ)
    (hflows : ∀ kv ∈ tf, ∀ bv ∈ kv.2, 0 ≤ bv.2)
    (hdist : ∀ e ∈ G.edges, 0 ≤ e.2.2.distance.getD 1)
    (hcond : ∀ e ∈ G.edges, e.2.2.condition.getD 5 ≤ 12)
    (hcapG : ∀ e ∈ G.edges, 0 < e.2.2.capacity.getD 3000)
    (a b : String) :
    dijkstraWeight G tf bucket a b ≤
      dijkstraWeight G (bumpFlow tf rid bucket δ) bucket a b := by
  unfold dijkstraWeight
  cases hf : G.edges.find?
      (fun e => decide ((e.1 = a ∧ e.2.1 = b) ∨ (e.1 = b ∧ e.2.1 = a))) with
  | none => exact le_refl 0
  | some e =>
    have hmem : e ∈ G.edges := List.mem_of_find?_eq_some hf
    dsimp only
    rw [dijkstraEdgeWeight_eq_prod, dijkstraEdgeWeight_eq_prod]
    have htle := trafficFactor_bump_le tf rid bucket e.1 e.2.1 e.2.2 δ hδ hflows (hcapG e hmem)
    have hcf : 0 ≤ conditionFactor e.2.2 := by
      unfold conditionFactor
      have := hcond e hmem
      linarith
    have hd := hdist e hmem
    have h1 : e.2.2.distance.getD 1 * trafficFactor tf bucket e.1 e.2.1 e.2.2 ≤
        e.2.2.distance.getD 1 *
          trafficFactor (bumpFlow tf rid bucket δ) bucket e.1 e.2.1 e.2.2 :=
      mul_le_mul_of_nonneg_left htle hd
    exact mul_le_mul_of_nonneg_right h1 hcf

theorem pathCost_mono (w1 w2 : String → String → ℚ)
    (h : ∀ a b, w1 a b ≤ w2 a b) :
    ∀ p : List String, pathCost w1 p ≤ pathCost w2 p := by
  intro p
  induction p with
  | nil => exact le_refl 0
  | cons a q ih =>
    cases q with
    | nil => exact le_refl 0
    | cons b rest =>
      unfold pathCost
      exact add_le_add (h a b) ih

theorem minPathCost_mono (w1 w2 : String → String → ℚ)
    (h : ∀ a b, w1 a b ≤ w2 a b) (ps : List (List String)) :
    minPathCost w1 ps ≤ minPathCost w2 ps := by
  unfold minPathCost
  induction ps with
  | nil => exact le_refl ⊤
  | cons p t ih =>
    simp only [List.map_cons, List.foldr_cons]
    exact min_le_min (WithTop.coe_le_coe.mpr (pathCost_mono w1 w2 h p)) ih

theorem run_dijkstra_travel_time (G : Graph) (o d bucket : String)
    (tf : List (String × List (String × ℚ))) (r : DijkstraOutcome)
    (h : run_dijkstra G o d bucket tf = .ok r) :
    r.travel_time = minPathCost (dijkstraWeight G tf bucket) (simplePaths G o d) := by
  unfold run_dijkstra at h
  by_cases hmem : o ∈ G.nodes ∧ d ∈ G.nodes
  · rw [if_pos hmem] at h
    cases hargmin : argminPath (dijkstraWeight G tf bucket) (simplePaths G o d) with
    | none =>
      rw [hargmin] at h
      injection h with h2
      rw [← h2]
      have hnil : simplePaths G o d = [] := (argminPath_eq_none_iff _).mp hargmin
      rw [hnil]
      rfl
    | some p =>
      rw [hargmin] at h
      dsimp only at h
      by_cases hemp : (dijkstraPathEdges G (dijkstraWeight G tf bucket) p).isEmpty
      · rw [if_pos hemp] at h
        cases h
      · rw [if_neg hemp] at h
        injection h with h2
        rw [← h2]
  · rw [if_neg hmem] at h
    cases h

/-- C8 — increasing one road id flow entry for the active time bucket never
decreases the travel time returned by `run_dijkstra` (hypotheses: the
increment is nonnegative, stored flows are nonnegative, and the graph data is
well formed: nonnegative distances, conditions at most 12, positive
capacities). -/
theorem run_dijkstra_flow_monotone (G : Graph) (o d bucket : String)
    (tf : List (String × List (String × ℚ))) (rid : String) (δ : ℚ)
    (hδ : 0 ≤ δ)
    (hflows : ∀ kv ∈ tf, ∀ bv ∈ kv.2, 0 ≤ bv.2)
    (hdist : ∀ e ∈ G.edges, 0 ≤ e.2.2.distance.getD 1)
    (hcond : ∀ e ∈ G.edges, e.2.2.condition.getD 5 ≤ 12)
    (hcapG : ∀ e ∈ G.edges, 0 < e.2.2.capacity.getD 3000) :
    ∀ r1 r2 : DijkstraOutcome,
      run_dijkstra G o d bucket tf = .ok r1 →
      run_dijkstra G o d bucket (bumpFlow tf rid bucket δ) = .ok r2 →
      r1.travel_time ≤ r2.travel_time := by
  intro r1 r2 h1 h2
  rw [run_dijkstra_travel_time G o d bucket tf r1 h1,
      run_dijkstra_travel_time G o d bucket (bumpFlow tf rid bucket δ) r2 h2]
  exact minPathCost_mono _ _
    (dijkstraWeight_bump_le G tf rid bucket δ hδ hflows hdist hcond hcapG)
    (simplePaths G o d)

/-- Witness for C8: one edge whose morning-peak flow is raised by 1000
(from 1000 to 2000); the returned travel time can only grow. -/
theorem run_dijkstra_flow_monotone_witness :
    (0:ℚ) ≤ 1000 ∧
    (∀ r1 r2 : DijkstraOutcome,
      run_dijkstra (Graph.mk ["1", "2"] [("1", "2", ⟨some 2, some 1000, some 10⟩)])
        "1" "2" "morning_peak" [("1-2", [("morning_peak", 1000)])] = .ok r1 →
      run_dijkstra (Graph.mk ["1", "2"] [("1", "2", ⟨some 2, some 1000, some 10⟩)])
        "1" "2" "morning_peak"
        (bumpFlow [("1-2", [("morning_peak", 1000)])] "1-2" "morning_peak" 1000) = .ok r2 →
      r1.travel_time ≤ r2.travel_time) :=
  ⟨by norm_num,
   run_dijkstra_flow_monotone
     (Graph.mk ["1", "2"] [("1", "2", ⟨some 2, some 1000, some 10⟩)])
     "1" "2" "morning_peak" [("1-2", [("morning_peak", 1000)])] "1-2" 1000
     (by norm_num)
     (by
       intro kv hkv bv hbv
       simp only [List.mem_singleton] at hkv
       subst hkv
       simp only [List.mem_singleton] at hbv
       subst hbv
       norm_num)
     (by
       intro e he
       simp only [List.mem_singleton] at he
       subst he
       norm_num)
     (by
       intro e he
       simp only [List.mem_singleton] at he
       subst he
       norm_num)
     (by
       intro e he
       simp only [List.mem_singleton] at he
       subst he
       norm_num)⟩

/-- C10 — `run_dijkstra` returns the no-path sentinel (`path = None`, infinite
time, empty edge list, error record) exactly when origin and destination are
both nodes of the graph but disconnected; when either id is not a node it
raises an uncaught `NodeNotFound` exception instead.  (Hypothesis: stored
edges join nodes of the graph, which `networkx` guarantees.) -/
theorem run_dijkstra_sentinel_iff_disconnected (G : Graph) (o d bucket : String)
    (tf : List (String × List (String × ℚ)))
    (hwf : ∀ e ∈ G.edges, e.1 ∈ G.nodes ∧ e.2.1 ∈ G.nodes) :
    (run_dijkstra G o d bucket tf = .ok noPathSentinel ↔
      o ∈ G.nodes ∧ d ∈ G.nodes ∧ ¬ ConnG G o d) ∧
    (run_dijkstra G o d bucket tf = .error .nodeNotFound ↔
      (o ∉ G.nodes ∨ d ∉ G.nodes)) := by
  unfold run_dijkstra
  by_cases hmem : o ∈ G.nodes ∧ d ∈ G.nodes
  · rw [if_pos hmem]
    cases hargmin : argminPath (dijkstraWeight G tf bucket) (simplePaths G o d) with
    | none =>
      have hnil : simplePaths G o d = [] := (argminPath_eq_none_iff _).mp hargmin
      have hnconn : ¬ ConnG G o d := fun hc =>
        simplePaths_ne_nil_of_conn hwf hmem.1 hc hnil
      refine ⟨⟨fun _ => ⟨hmem.1, hmem.2, hnconn⟩, fun _ => rfl⟩,
              ⟨fun hc => (by cases hc), fun hc => ?_⟩⟩
      rcases hc with hc | hc
      · exact absurd hmem.1 hc
      · exact absurd hmem.2 hc
    | some p =>
      have hne : simplePaths G o d ≠ [] := by
        intro hc
        rw [(argminPath_eq_none_iff _).mpr hc] at hargmin
        cases hargmin
      have hconn : ConnG G o d := conn_of_simplePaths_ne_nil hne
      dsimp only
      by_cases hemp : (dijkstraPathEdges G (dijkstraWeight G tf bucket) p).isEmpty
      · rw [if_pos hemp]
        refine ⟨⟨fun hc => (by cases hc), fun hc => absurd hconn hc.2.2⟩,
                ⟨fun hc => ?_, fun hc => ?_⟩⟩
        · injection hc with h
          cases h
        · rcases hc with hc | hc
          · exact absurd hmem.1 hc
          · exact absurd hmem.2 hc
      · rw [if_neg hemp]
        refine ⟨⟨fun hc => ?_, fun hc => absurd hconn hc.2.2⟩,
                ⟨fun hc => (by cases hc), fun hc => ?_⟩⟩
        · injection hc with h
          have hpath := congrArg DijkstraOutcome.path h
          cases hpath
        · rcases hc with hc | hc
          · exact absurd hmem.1 hc
          · exact absurd hmem.2 hc
  · rw [if_neg hmem]
    refine ⟨⟨fun hc => (by cases hc), fun hc => absurd ⟨hc.1, hc.2.1⟩ hmem⟩,
            ⟨fun _ => not_and_or.mp hmem, fun _ => rfl⟩⟩

/-- Witness for C10: a two-node edgeless graph. -/
theorem run_dijkstra_sentinel_iff_disconnected_witness :
    (∀ e ∈ (Graph.mk ["1", "2"] []).edges,
        e.1 ∈ (Graph.mk ["1", "2"] []).nodes ∧ e.2.1 ∈ (Graph.mk ["1", "2"] []).nodes) ∧
    ((run_dijkstra (Graph.mk ["1", "2"] []) "1" "2" "morning_peak" [] =
        .ok noPathSentinel ↔
      "1" ∈ (Graph.mk ["1", "2"] []).nodes ∧ "2" ∈ (Graph.mk ["1", "2"] []).nodes ∧
        ¬ ConnG (Graph.mk ["1", "2"] []) "1" "2") ∧
     (run_dijkstra (Graph.mk ["1", "2"] []) "1" "2" "morning_peak" [] =
        .error .nodeNotFound ↔
      ("1" ∉ (Graph.mk ["1", "2"] []).nodes ∨ "2" ∉ (Graph.mk ["1", "2"] []).nodes))) :=
  ⟨(by intro e he; cases he),
   run_dijkstra_sentinel_iff_disconnected (Graph.mk ["1", "2"] []) "1" "2" "morning_peak" []
     (by intro e he; cases he)⟩

/-! ## Kruskal correctness (C2) -/

theorem pairRel_symm {E : List (String × String)} {a b : String}
    (h : pairRel E a b) : pairRel E b a := h.symm

theorem connE_symm {E : List (String × String)} {a b : String}
    (h : ConnE E a b) : ConnE E b a := by
  induction h with
  | refl => exact Relation.ReflTransGen.refl
  | tail _ hstep ih => exact Relation.ReflTransGen.head (pairRel_symm hstep) ih

theorem connE_mono {E1 E2 : List (String × String)}
    (hsub : ∀ p ∈ E1, p ∈ E2) {a b : String} (h : ConnE E1 a b) : ConnE E2 a b := by
  refine Relation.ReflTransGen.mono ?_ h
  intro x y hxy
  rcases hxy with hm | hm
  · exact Or.inl (hsub _ hm)
  · exact Or.inr (hsub _ hm)

theorem connE_perm {E1 E2 : List (String × String)} (hperm : E1.Perm E2)
    (a b : String) : ConnE E1 a b ↔ ConnE E2 a b :=
  ⟨connE_mono (fun p hp => hperm.mem_iff.mp hp),
   connE_mono (fun p hp => hperm.mem_iff.mpr hp)⟩

theorem connE_nil {a b : String} (h : ConnE [] a b) : a = b := by
  induction h with
  | refl => rfl
  | tail _ hstep _ =>
    rcases hstep with hm | hm
    · cases hm
    · cases hm

theorem connE_append_single_iff (E : List (String × String)) (a b : String) :
    ∀ u v : String, ConnE (E ++ [(a, b)]) u v ↔
      ConnE E u v ∨ (ConnE E u a ∧ ConnE E b v) ∨ (ConnE E u b ∧ ConnE E a v) := by
  have hstep : ∀ x y : String, pairRel (E ++ [(a, b)]) x y →
      pairRel E x y ∨ (x = a ∧ y = b) ∨ (x = b ∧ y = a) := by
    intro x y hxy
    rcases hxy with hm | hm
    · rcases List.mem_append.mp hm with hm2 | hm2
      · exact Or.inl (Or.inl hm2)
      · have : (x, y) = (a, b) := by simpa using hm2
        exact Or.inr (Or.inl ⟨congrArg Prod.fst this, congrArg Prod.snd this⟩)
    · rcases List.mem_append.mp hm with hm2 | hm2
      · exact Or.inl (Or.inr hm2)
      · have : (y, x) = (a, b) := by simpa using hm2
        exact Or.inr (Or.inr ⟨congrArg Prod.snd this, congrArg Prod.fst this⟩)
  have hemb : ∀ u v : String, ConnE E u v → ConnE (E ++ [(a, b)]) u v :=
    fun u v => connE_mono (fun p hp => List.mem_append.mpr (Or.inl hp))
  have hedge : ConnE (E ++ [(a, b)]) a b :=
    Relation.ReflTransGen.single (Or.inl (List.mem_append.mpr (Or.inr (List.mem_singleton.mpr rfl))))
  intro u v
  constructor
  · intro h
    induction h using Relation.ReflTransGen.head_induction_on with
    | refl => exact Or.inl Relation.ReflTransGen.refl
    | head hxz _ ih =>
      rename_i x z _
      rcases hstep x z hxz with hm | ⟨hxa, hzb⟩ | ⟨hxb, hza⟩
      · have hxz2 : ConnE E x z := Relation.ReflTransGen.single hm
        rcases ih with h1 | ⟨h1, h2⟩ | ⟨h1, h2⟩
        · exact Or.inl (Relation.ReflTransGen.trans hxz2 h1)
        · exact Or.inr (Or.inl ⟨Relation.ReflTransGen.trans hxz2 h1, h2⟩)
        · exact Or.inr (Or.inr ⟨Relation.ReflTransGen.trans hxz2 h1, h2⟩)
      · subst hxa
        subst hzb
        rcases ih with h1 | ⟨h1, h2⟩ | ⟨h1, h2⟩
        · exact Or.inr (Or.inl ⟨Relation.ReflTransGen.refl, h1⟩)
        · exact Or.inr (Or.inl ⟨Relation.ReflTransGen.refl, h2⟩)
        · exact Or.inl h2
      · subst hxb
        subst hza
        rcases ih with h1 | ⟨h1, h2⟩ | ⟨h1, h2⟩
        · exact Or.inr (Or.inr ⟨Relation.ReflTransGen.refl, h1⟩)
        · exact Or.inl h2
        · exact Or.inl (Relation.ReflTransGen.trans (connE_symm h1) h2)
  · intro h
    rcases h with h1 | ⟨h1, h2⟩ | ⟨h1, h2⟩
    · exact hemb u v h1
    · exact Relation.ReflTransGen.trans (hemb u a h1)
        (Relation.ReflTransGen.trans hedge (hemb b v h2))
    · exact Relation.ReflTransGen.trans (hemb u b h1)
        (Relation.ReflTransGen.trans
          (connE_symm hedge) (hemb a v h2))

theorem connE_append_redundant {E : List (String × String)} {a b : String}
    (hab : ConnE E a b) (u v : String) :
    ConnE (E ++ [(a, b)]) u v ↔ ConnE E u v := by
  rw [connE_append_single_iff]
  constructor
  · intro h
    rcases h with h1 | ⟨h1, h2⟩ | ⟨h1, h2⟩
    · exact h1
    · exact Relation.ReflTransGen.trans h1 (Relation.ReflTransGen.trans hab h2)
    · exact Relation.ReflTransGen.trans h1
        (Relation.ReflTransGen.trans (connE_symm hab) h2)
  · exact Or.inl

theorem inv_self_mem {nodes : List String} {E : List (String × String)}
    {t : String → Finset String} (hI : KruskalInv nodes E t) {u : String}
    (hu : u ∈ nodes) : u ∈ t u :=
  (hI u hu u).mpr ⟨hu, Relation.ReflTransGen.refl⟩

theorem inv_conn_mem {nodes : List String} {E : List (String × String)}
    {t : String → Finset String} (hI : KruskalInv nodes E t) {u v : String}
    (hu : u ∈ nodes) (hv : v ∈ nodes) (hc : ConnE E u v) : v ∈ t u :=
  (hI u hu v).mpr ⟨hv, hc⟩

theorem inv_eq_of_conn {nodes : List String} {E : List (String × String)}
    {t : String → Finset String} (hI : KruskalInv nodes E t) {u v : String}
    (hu : u ∈ nodes) (hv : v ∈ nodes) (hc : ConnE E u v) : t u = t v := by
  apply Finset.ext
  intro x
  rw [hI u hu x, hI v hv x]
  constructor
  · intro ⟨hx1, hx2⟩
    exact ⟨hx1, Relation.ReflTransGen.trans (connE_symm hc) hx2⟩
  · intro ⟨hx1, hx2⟩
    exact ⟨hx1, Relation.ReflTransGen.trans hc hx2⟩

theorem inv_conn_of_eq {nodes : List String} {E : List (String × String)}
    {t : String → Finset String} (hI : KruskalInv nodes E t) {u v : String}
    (hu : u ∈ nodes) (hv : v ∈ nodes) (he : t u = t v) : ConnE E u v := by
  have hm : v ∈ t u := he ▸ inv_self_mem hI hv
  exact ((hI u hu v).mp hm).2

theorem inv_step_skip {nodes : List String} {E : List (String × String)}
    {t : String → Finset String} (hI : KruskalInv nodes E t) {a b : String}
    (ha : a ∈ nodes) (hb : b ∈ nodes) (he : t a = t b) :
    KruskalInv nodes (E ++ [(a, b)]) t := by
  have hab : ConnE E a b := inv_conn_of_eq hI ha hb he
  intro u hu v
  rw [hI u hu v, connE_append_redundant hab]

theorem inv_step_merge {nodes : List String} {E : List (String × String)}
    {t : String → Finset String} (hI : KruskalInv nodes E t) {a b : String}
    (ha : a ∈ nodes) (hb : b ∈ nodes) :
    KruskalInv nodes (E ++ [(a, b)])
      (fun n => if n ∈ t a ∪ t b then t a ∪ t b else t n) := by
  intro u hu v
  rw [connE_append_single_iff]
  show v ∈ (if u ∈ t a ∪ t b then t a ∪ t b else t u) ↔ _
  by_cases hmem : u ∈ t a ∪ t b
  · rw [if_pos hmem]
    rcases Finset.mem_union.mp hmem with hua | hub
    · have hau : ConnE E a u := ((hI a ha u).mp hua).2
      constructor
      · intro hv
        rcases Finset.mem_union.mp hv with hv1 | hv2
        · obtain ⟨hvn, hav⟩ := (hI a ha v).mp hv1
          exact ⟨hvn, Or.inl (Relation.ReflTransGen.trans (connE_symm hau) hav)⟩
        · obtain ⟨hvn, hbv⟩ := (hI b hb v).mp hv2
          exact ⟨hvn, Or.inr (Or.inl ⟨connE_symm hau, hbv⟩)⟩
      · intro ⟨hvn, hd⟩
        rcases hd with hd | ⟨hd1, hd2⟩ | ⟨hd1, hd2⟩
        · exact Finset.mem_union.mpr (Or.inl
            (inv_conn_mem hI ha hvn (Relation.ReflTransGen.trans hau hd)))
        · exact Finset.mem_union.mpr (Or.inr (inv_conn_mem hI hb hvn hd2))
        · exact Finset.mem_union.mpr (Or.inl (inv_conn_mem hI ha hvn hd2))
    · have hbu : ConnE E b u := ((hI b hb u).mp hub).2
      constructor
      · intro hv
        rcases Finset.mem_union.mp hv with hv1 | hv2
        · obtain ⟨hvn, hav⟩ := (hI a ha v).mp hv1
          exact ⟨hvn, Or.inr (Or.inr ⟨connE_symm hbu, hav⟩)⟩
        · obtain ⟨hvn, hbv⟩ := (hI b hb v).mp hv2
          exact ⟨hvn, Or.inl (Relation.ReflTransGen.trans (connE_symm hbu) hbv)⟩
      · intro ⟨hvn, hd⟩
        rcases hd with hd | ⟨hd1, hd2⟩ | ⟨hd1, hd2⟩
        · exact Finset.mem_union.mpr (Or.inr
            (inv_conn_mem hI hb hvn (Relation.ReflTransGen.trans hbu hd)))
        · exact Finset.mem_union.mpr (Or.inr (inv_conn_mem hI hb hvn hd2))
        · exact Finset.mem_union.mpr (Or.inl (inv_conn_mem hI ha hvn hd2))
  · rw [if_neg hmem]
    rw [hI u hu v]
    constructor
    · intro ⟨hvn, hc⟩
      exact ⟨hvn, Or.inl hc⟩
    · intro ⟨hvn, hd⟩
      rcases hd with hd | ⟨hd1, hd2⟩ | ⟨hd1, hd2⟩
      · exact ⟨hvn, hd⟩
      · exact absurd (Finset.mem_union.mpr (Or.inl
          (inv_conn_mem hI ha hu (connE_symm hd1)))) hmem
      · exact absurd (Finset.mem_union.mpr (Or.inr
          (inv_conn_mem hI hb hu (connE_symm hd1)))) hmem

theorem inv_block_eq {nodes : List String} {E : List (String × String)}
    {t : String → Finset String} (hI : KruskalInv nodes E t) {a n : String}
    (ha : a ∈ nodes) (hn : n ∈ nodes) (hmem : n ∈ t a) : t n = t a :=
  (inv_eq_of_conn hI ha hn ((hI a ha n).mp hmem).2).symm

theorem image_merge_eq {nodes : List String} {E : List (String × String)}
    {t : String → Finset String} (hI : KruskalInv nodes E t) {a b : String}
    (ha : a ∈ nodes) (hb : b ∈ nodes) :
    nodes.toFinset.image (fun n => if n ∈ t a ∪ t b then t a ∪ t b else t n) =
      insert (t a ∪ t b) ((nodes.toFinset.image t) \ {t a, t b}) := by
  apply Finset.ext
  intro x
  constructor
  · intro hx
    obtain ⟨n, hn, hxn⟩ := Finset.mem_image.mp hx
    have hnn : n ∈ nodes := List.mem_toFinset.mp hn
    by_cases hm : n ∈ t a ∪ t b
    · rw [if_pos hm] at hxn
      exact Finset.mem_insert.mpr (Or.inl hxn.symm)
    · rw [if_neg hm] at hxn
      refine Finset.mem_insert.mpr (Or.inr (Finset.mem_sdiff.mpr
        ⟨Finset.mem_image.mpr ⟨n, hn, hxn⟩, ?_⟩))
      intro hpair
      rcases Finset.mem_insert.mp hpair with hp | hp
      · have hna : n ∈ t a := by
          rw [← hxn] at hp
          rw [← hp]
          exact inv_self_mem hI hnn
        exact hm (Finset.mem_union.mpr (Or.inl hna))
      · have hp2 : x = t b := Finset.mem_singleton.mp hp
        have hnb : n ∈ t b := by
          rw [← hxn] at hp2
          rw [← hp2]
          exact inv_self_mem hI hnn
        exact hm (Finset.mem_union.mpr (Or.inr hnb))
  · intro hx
    rcases Finset.mem_insert.mp hx with hx | hx
    · refine Finset.mem_image.mpr ⟨a, List.mem_toFinset.mpr ha, ?_⟩
      rw [if_pos (Finset.mem_union.mpr (Or.inl (inv_self_mem hI ha)))]
      exact hx.symm
    · obtain ⟨hximg, hxnot⟩ := Finset.mem_sdiff.mp hx
      obtain ⟨n, hn, hxn⟩ := Finset.mem_image.mp hximg
      have hnn : n ∈ nodes := List.mem_toFinset.mp hn
      refine Finset.mem_image.mpr ⟨n, hn, ?_⟩
      have hm : n ∉ t a ∪ t b := by
        intro hm
        rcases Finset.mem_union.mp hm with hm2 | hm2
        · exact hxnot (Finset.mem_insert.mpr (Or.inl
            (by rw [← hxn, inv_block_eq hI ha hnn hm2])))
        · exact hxnot (Finset.mem_insert.mpr (Or.inr (Finset.mem_singleton.mpr
            (by rw [← hxn, inv_block_eq hI hb hnn hm2]))))
      rw [if_neg hm]
      exact hxn

theorem image_card_merge {nodes : List String} {E : List (String × String)}
    {t : String → Finset String} (hI : KruskalInv nodes E t) {a b : String}
    (ha : a ∈ nodes) (hb : b ∈ nodes) (hne : t a ≠ t b) :
    (nodes.toFinset.image
        (fun n => if n ∈ t a ∪ t b then t a ∪ t b else t n)).card + 1 =
      (nodes.toFinset.image t).card := by
  rw [image_merge_eq hI ha hb]
  have hta : t a ∈ nodes.toFinset.image t :=
    Finset.mem_image.mpr ⟨a, List.mem_toFinset.mpr ha, rfl⟩
  have htb : t b ∈ nodes.toFinset.image t :=
    Finset.mem_image.mpr ⟨b, List.mem_toFinset.mpr hb, rfl⟩
  have hUnot : (t a ∪ t b) ∉ (nodes.toFinset.image t) \ {t a, t b} := by
    intro hU
    obtain ⟨hUimg, hUnot2⟩ := Finset.mem_sdiff.mp hU
    obtain ⟨n, hn, hxn⟩ := Finset.mem_image.mp hUimg
    have hnn : n ∈ nodes := List.mem_toFinset.mp hn
    have hnU : n ∈ t a ∪ t b := by
      rw [← hxn]
      exact inv_self_mem hI hnn
    rcases Finset.mem_union.mp hnU with hm2 | hm2
    · exact hUnot2 (Finset.mem_insert.mpr (Or.inl
        (by rw [← hxn, inv_block_eq hI ha hnn hm2])))
    · exact hUnot2 (Finset.mem_insert.mpr (Or.inr (Finset.mem_singleton.mpr
        (by rw [← hxn, inv_block_eq hI hb hnn hm2]))))
  rw [Finset.card_insert_of_not_mem hUnot]
  have hsub : ({t a, t b} : Finset (Finset String)) ⊆ nodes.toFinset.image t := by
    intro x hx
    rcases Finset.mem_insert.mp hx with hx | hx
    · exact hx ▸ hta
    · exact (Finset.mem_singleton.mp hx) ▸ htb
  rw [Finset.card_sdiff hsub]
  have hcard2 : ({t a, t b} : Finset (Finset String)).card = 2 :=
    Finset.card_pair hne
  rw [hcard2]
  have hge : 2 ≤ (nodes.toFinset.image t).card := by
    calc 2 = ({t a, t b} : Finset (Finset String)).card := hcard2.symm
      _ ≤ (nodes.toFinset.image t).card := Finset.card_le_card hsub
  omega

theorem kruskalStep_merge (st : KruskalState) (e : MstEdge)
    (hne : st.trees e.src ≠ st.trees e.tgt) :
    kruskalStep st e =
      { trees := fun n => if n ∈ st.trees e.src ∪ st.trees e.tgt then
          st.trees e.src ∪ st.trees e.tgt else st.trees n,
        selected := st.selected ++ [e] } := by
  unfold kruskalStep
  rw [if_pos hne]

theorem kruskalStep_skip (st : KruskalState) (e : MstEdge)
    (heq : st.trees e.src = st.trees e.tgt) :
    kruskalStep st e = st := by
  unfold kruskalStep
  rw [if_neg (by
    intro hc
    exact hc heq)]

theorem kruskal_fold_spec (nodes : List String) :
    ∀ (es : List MstEdge) (E : List (String × String)) (st : KruskalState),
      (∀ e ∈ es, e.src ∈ nodes ∧ e.tgt ∈ nodes) →
      KruskalInv nodes E st.trees →
      KruskalInv nodes (E ++ edgePairs es) (es.foldl kruskalStep st).trees ∧
      (es.foldl kruskalStep st).selected.length +
          (nodes.toFinset.image (es.foldl kruskalStep st).trees).card =
        st.selected.length + (nodes.toFinset.image st.trees).card := by
  intro es
  induction es with
  | nil =>
    intro E st _ hI
    constructor
    · simpa [edgePairs] using hI
    · rfl
  | cons e es ih =>
    intro E st hends hI
    have hsrc : e.src ∈ nodes := (hends e (List.mem_cons_self e es)).1
    have htgt : e.tgt ∈ nodes := (hends e (List.mem_cons_self e es)).2
    have hends2 : ∀ e2 ∈ es, e2.src ∈ nodes ∧ e2.tgt ∈ nodes :=
      fun e2 he2 => hends e2 (List.mem_cons_of_mem e he2)
    rw [List.foldl_cons]
    have happ : E ++ edgePairs (e :: es) = (E ++ [(e.src, e.tgt)]) ++ edgePairs es := by
      simp [edgePairs]
    by_cases hne : st.trees e.src ≠ st.trees e.tgt
    · rw [kruskalStep_merge st e hne]
      have hI2 : KruskalInv nodes (E ++ [(e.src, e.tgt)])
          (fun n => if n ∈ st.trees e.src ∪ st.trees e.tgt then
            st.trees e.src ∪ st.trees e.tgt else st.trees n) :=
        inv_step_merge hI hsrc htgt
      obtain ⟨hIfin, hcnt⟩ := ih (E ++ [(e.src, e.tgt)])
        { trees := fun n => if n ∈ st.trees e.src ∪ st.trees e.tgt then
            st.trees e.src ∪ st.trees e.tgt else st.trees n,
          selected := st.selected ++ [e] } hends2 hI2
      constructor
      · rw [happ]
        exact hIfin
      · rw [hcnt]
        simp only [List.length_append, List.length_cons, List.length_nil]
        have hmerge := image_card_merge hI hsrc htgt hne
        omega
    · push_neg at hne
      rw [kruskalStep_skip st e hne]
      have hI2 : KruskalInv nodes (E ++ [(e.src, e.tgt)]) st.trees :=
        inv_step_skip hI hsrc htgt hne
      obtain ⟨hIfin, hcnt⟩ := ih (E ++ [(e.src, e.tgt)]) st hends2 hI2
      constructor
      · rw [happ]
        exact hIfin
      · exact hcnt

theorem inv_init (nodes : List String) :
    KruskalInv nodes [] (fun n => {n}) := by
  intro u hu v
  constructor
  · intro hv
    have hvu : v = u := by simpa using hv
    subst hvu
    exact ⟨hu, Relation.ReflTransGen.refl⟩
  · intro ⟨hvn, hc⟩
    have := connE_nil hc
    simp [this]

theorem image_init (nodes : List String) (hnd : nodes.Nodup) :
    (nodes.toFinset.image (fun n => ({n} : Finset String))).card = nodes.length := by
  rw [Finset.card_image_of_injective _ Finset.singleton_injective]
  rw [List.toFinset_card_of_nodup hnd]

/-- C2 — `run_mst_algorithm` computes a spanning forest: on a connected input
it selects exactly `|nodes| - 1` edges and reports `all_connected = True`; on
a disconnected input it selects fewer edges and reports
`all_connected = False` (no error); the final `trees` map identifies two
nodes exactly when the provided roads connect them, and the number of
selected edges plus the number of distinct trees equals the number of nodes.
Hypotheses: node ids are distinct and nonempty, and every road endpoint is a
known node (otherwise the Python code raises `KeyError`). -/
theorem run_mst_spanning_forest (ns : List Neighborhood) (fs : List Facility)
    (existing : List Road) (potential : List PotentialRoad)
    (prioHosp prioPop : Bool)
    (hne : mstNodes ns fs ≠ [])
    (hnd : (mstNodes ns fs).Nodup)
    (hends : ∀ p ∈ roadPairs existing potential,
      p.1 ∈ mstNodes ns fs ∧ p.2 ∈ mstNodes ns fs) :
    ((∀ u ∈ mstNodes ns fs, ∀ v ∈ mstNodes ns fs,
        ConnE (roadPairs existing potential) u v) →
      (run_mst_algorithm ns fs existing potential prioHosp prioPop).selected_roads.length
          = (mstNodes ns fs).length - 1 ∧
        (run_mst_algorithm ns fs existing potential prioHosp prioPop).all_connected = true) ∧
    ((¬ ∀ u ∈ mstNodes ns fs, ∀ v ∈ mstNodes ns fs,
        ConnE (roadPairs existing potential) u v) →
      (run_mst_algorithm ns fs existing potential prioHosp prioPop).selected_roads.length
          < (mstNodes ns fs).length - 1 ∧
        (run_mst_algorithm ns fs existing potential prioHosp prioPop).all_connected = false) ∧
    (∀ u ∈ mstNodes ns fs, ∀ v ∈ mstNodes ns fs,
      ((run_mst_algorithm ns fs existing potential prioHosp prioPop).trees u =
          (run_mst_algorithm ns fs existing potential prioHosp prioPop).trees v ↔
        ConnE (roadPairs existing potential) u v)) ∧
    ((run_mst_algorithm ns fs existing potential prioHosp prioPop).selected_roads.length +
        ((mstNodes ns fs).toFinset.image
          (run_mst_algorithm ns fs existing potential prioHosp prioPop).trees).card =
      (mstNodes ns fs).length) := by
  have hperm : (sortedMstEdges prioPop prioHosp ns existing potential).Perm
      (mstEdges prioPop prioHosp ns existing potential) :=
    List.perm_insertionSort _ _
  have hpairs_eq : edgePairs (mstEdges prioPop prioHosp ns existing potential) =
      roadPairs existing potential := by
    simp only [edgePairs, mstEdges, roadPairs, List.map_append, List.map_map]
    rfl
  have hconn_iff : ∀ u v : String,
      ConnE (edgePairs (sortedMstEdges prioPop prioHosp ns existing potential)) u v ↔
        ConnE (roadPairs existing potential) u v := by
    intro u v
    have h1 := connE_perm (hperm.map (fun e => (e.src, e.tgt))) u v
    have h2 : edgePairs (sortedMstEdges prioPop prioHosp ns existing potential) =
        (sortedMstEdges prioPop prioHosp ns existing potential).map
          (fun e => (e.src, e.tgt)) := rfl
    rw [h2, h1]
    rw [show (mstEdges prioPop prioHosp ns existing potential).map
        (fun e => (e.src, e.tgt)) = roadPairs existing potential from hpairs_eq]
  have hends_sorted : ∀ e ∈ sortedMstEdges prioPop prioHosp ns existing potential,
      e.src ∈ mstNodes ns fs ∧ e.tgt ∈ mstNodes ns fs := by
    intro e he
    have hmem : e ∈ mstEdges prioPop prioHosp ns existing potential :=
      hperm.mem_iff.mp he
    have hpair : (e.src, e.tgt) ∈ roadPairs existing potential := by
      rw [← hpairs_eq]
      exact List.mem_map_of_mem _ hmem
    exact hends _ hpair
  obtain ⟨hIfin, hcnt⟩ := kruskal_fold_spec (mstNodes ns fs)
    (sortedMstEdges prioPop prioHosp ns existing potential) []
    { trees := fun n => {n}, selected := [] } hends_sorted (inv_init (mstNodes ns fs))
  rw [List.nil_append] at hIfin
  rw [image_init (mstNodes ns fs) hnd] at hcnt
  simp only [List.length_nil, Nat.zero_add] at hcnt
  have hres : run_mst_algorithm ns fs existing potential prioHosp prioPop =
      { trees := ((sortedMstEdges prioPop prioHosp ns existing potential).foldl
          kruskalStep { trees := fun n => {n}, selected := [] }).trees,
        selected_roads := ((sortedMstEdges prioPop prioHosp ns existing potential).foldl
          kruskalStep { trees := fun n => {n}, selected := [] }).selected,
        total_cost := (((sortedMstEdges prioPop prioHosp ns existing potential).foldl
          kruskalStep { trees := fun n => {n}, selected := [] }).selected.map
            (fun e => e.cost)).sum,
        all_connected := (((mstNodes ns fs).toFinset.image
          ((sortedMstEdges prioPop prioHosp ns existing potential).foldl
            kruskalStep { trees := fun n => {n}, selected := [] }).trees).card == 1) } :=
    rfl
  rw [hres]
  dsimp only
  set final := (sortedMstEdges prioPop prioHosp ns existing potential).foldl
    kruskalStep { trees := fun n => {n}, selected := [] } with hfinal
  have htrees_iff : ∀ u ∈ mstNodes ns fs, ∀ v ∈ mstNodes ns fs,
      (final.trees u = final.trees v ↔ ConnE (roadPairs existing potential) u v) := by
    intro u hu v hv
    constructor
    · intro heq
      exact (hconn_iff u v).mp (inv_conn_of_eq hIfin hu hv heq)
    · intro hc
      exact inv_eq_of_conn hIfin hu hv ((hconn_iff u v).mpr hc)
  refine ⟨?_, ?_, ?_, ?_⟩
  · intro hconn
    obtain ⟨u0, hu0⟩ := List.exists_mem_of_ne_nil _ hne
    have hcard1 : ((mstNodes ns fs).toFinset.image final.trees).card = 1 := by
      rw [Finset.card_eq_one]
      refine ⟨final.trees u0, ?_⟩
      apply Finset.ext
      intro x
      constructor
      · intro hx
        obtain ⟨m, hm, hxm⟩ := Finset.mem_image.mp hx
        have hmn : m ∈ mstNodes ns fs := List.mem_toFinset.mp hm
        have := (htrees_iff m hmn u0 hu0).mpr (hconn m hmn u0 hu0)
        rw [← hxm, this]
        exact Finset.mem_singleton.mpr rfl
      · intro hx
        rw [Finset.mem_singleton.mp hx]
        exact Finset.mem_image.mpr ⟨u0, List.mem_toFinset.mpr hu0, rfl⟩
    constructor
    · rw [hcard1] at hcnt
      omega
    · simp [hcard1]
  · intro hnconn
    push_neg at hnconn
    obtain ⟨u, hu, v, hv, hnc⟩ := hnconn
    have hneq : final.trees u ≠ final.trees v := by
      intro hc
      exact hnc ((htrees_iff u hu v hv).mp hc)
    have hcard2 : 2 ≤ ((mstNodes ns fs).toFinset.image final.trees).card := by
      have hsub : ({final.trees u, final.trees v} : Finset (Finset String)) ⊆
          (mstNodes ns fs).toFinset.image final.trees := by
        intro x hx
        rcases Finset.mem_insert.mp hx with hx | hx
        · exact hx ▸ Finset.mem_image.mpr ⟨u, List.mem_toFinset.mpr hu, rfl⟩
        · exact (Finset.mem_singleton.mp hx) ▸
            Finset.mem_image.mpr ⟨v, List.mem_toFinset.mpr hv, rfl⟩
      calc 2 = ({final.trees u, final.trees v} : Finset (Finset String)).card :=
            (Finset.card_pair hneq).symm
        _ ≤ _ := Finset.card_le_card hsub
    constructor
    · omega
    · have : ((mstNodes ns fs).toFinset.image final.trees).card ≠ 1 := by omega
      simpa using this
  · exact htrees_iff
  · exact hcnt

/-- Witness for C2: one neighborhood, one facility, one existing road. -/
theorem run_mst_spanning_forest_witness :
    (mstNodes [⟨"N1", "A", 100, 0, 0⟩] [⟨"F9", "H", 1, 1⟩] ≠ [] ∧
     (mstNodes [⟨"N1", "A", 100, 0, 0⟩] [⟨"F9", "H", 1, 1⟩]).Nodup ∧
     (∀ p ∈ roadPairs [⟨"N1", "F9", 5, 1000, 8⟩] [],
        p.1 ∈ mstNodes [⟨"N1", "A", 100, 0, 0⟩] [⟨"F9", "H", 1, 1⟩] ∧
        p.2 ∈ mstNodes [⟨"N1", "A", 100, 0, 0⟩] [⟨"F9", "H", 1, 1⟩])) ∧
    (((∀ u ∈ mstNodes [⟨"N1", "A", 100, 0, 0⟩] [⟨"F9", "H", 1, 1⟩],
        ∀ v ∈ mstNodes [⟨"N1", "A", 100, 0, 0⟩] [⟨"F9", "H", 1, 1⟩],
        ConnE (roadPairs [⟨"N1", "F9", 5, 1000, 8⟩] []) u v) →
      (run_mst_algorithm [⟨"N1", "A", 100, 0, 0⟩] [⟨"F9", "H", 1, 1⟩]
          [⟨"N1", "F9", 5, 1000, 8⟩] [] true true).selected_roads.length
          = (mstNodes [⟨"N1", "A", 100, 0, 0⟩] [⟨"F9", "H", 1, 1⟩]).length - 1 ∧
        (run_mst_algorithm [⟨"N1", "A", 100, 0, 0⟩] [⟨"F9", "H", 1, 1⟩]
          [⟨"N1", "F9", 5, 1000, 8⟩] [] true true).all_connected = true) ∧
    ((¬ ∀ u ∈ mstNodes [⟨"N1", "A", 100, 0, 0⟩] [⟨"F9", "H", 1, 1⟩],
        ∀ v ∈ mstNodes [⟨"N1", "A", 100, 0, 0⟩] [⟨"F9", "H", 1, 1⟩],
        ConnE (roadPairs [⟨"N1", "F9", 5, 1000, 8⟩] []) u v) →
      (run_mst_algorithm [⟨"N1", "A", 100, 0, 0⟩] [⟨"F9", "H", 1, 1⟩]
          [⟨"N1", "F9", 5, 1000, 8⟩] [] true true).selected_roads.length
          < (mstNodes [⟨"N1", "A", 100, 0, 0⟩] [⟨"F9", "H", 1, 1⟩]).length - 1 ∧
        (run_mst_algorithm [⟨"N1", "A", 100, 0, 0⟩] [⟨"F9", "H", 1, 1⟩]
          [⟨"N1", "F9", 5, 1000, 8⟩] [] true true).all_connected = false) ∧
    (∀ u ∈ mstNodes [⟨"N1", "A", 100, 0, 0⟩] [⟨"F9", "H", 1, 1⟩],
      ∀ v ∈ mstNodes [⟨"N1", "A", 100, 0, 0⟩] [⟨"F9", "H", 1, 1⟩],
      ((run_mst_algorithm [⟨"N1", "A", 100, 0, 0⟩] [⟨"F9", "H", 1, 1⟩]
          [⟨"N1", "F9", 5, 1000, 8⟩] [] true true).trees u =
        (run_mst_algorithm [⟨"N1", "A", 100, 0, 0⟩] [⟨"F9", "H", 1, 1⟩]
          [⟨"N1", "F9", 5, 1000, 8⟩] [] true true).trees v ↔
        ConnE (roadPairs [⟨"N1", "F9", 5, 1000, 8⟩] []) u v)) ∧
    ((run_mst_algorithm [⟨"N1", "A", 100, 0, 0⟩] [⟨"F9", "H", 1, 1⟩]
        [⟨"N1", "F9", 5, 1000, 8⟩] [] true true).selected_roads.length +
        ((mstNodes [⟨"N1", "A", 100, 0, 0⟩] [⟨"F9", "H", 1, 1⟩]).toFinset.image
          (run_mst_algorithm [⟨"N1", "A", 100, 0, 0⟩] [⟨"F9", "H", 1, 1⟩]
            [⟨"N1", "F9", 5, 1000, 8⟩] [] true true).trees).card =
      (mstNodes [⟨"N1", "A", 100, 0, 0⟩] [⟨"F9", "H", 1, 1⟩]).length)) :=
  ⟨⟨(by decide), (by decide), (by decide)⟩,
   run_mst_spanning_forest [⟨"N1", "A", 100, 0, 0⟩] [⟨"F9", "H", 1, 1⟩]
     [⟨"N1", "F9", 5, 1000, 8⟩] [] true true (by decide) (by decide) (by decide)⟩

/-- C6 counterexample — an existing road from a 500,000-population
neighborhood to facility `F1`, with `prioritize_high_population` enabled and
hospital prioritization off: the claim's rule fires (`specHighPopApplies`),
demanding weight `10 × 60 × 0.7 = 420`, but the code leaves the weight at
`600` because the facility endpoint has no population record. -/
theorem mst_highpop_discount_counterexample :
    specHighPopApplies [⟨"N1", "A", 500000, 0, 0⟩] "N1" "F1" = true ∧
    existingRoadWeight true false [⟨"N1", "A", 500000, 0, 0⟩]
      ⟨"N1", "F1", 10, 1000, 5⟩ = 600 ∧
    ((10 : ℚ) * ((11 - 5) * 10)) * (7/10) = 420 ∧
    (600 : ℚ) ≠ 420 := by
  refine ⟨?_, ?_, ?_, ?_⟩
  · rfl
  · norm_num [existingRoadWeight, highPopApplies, lookupPop, hospApplies]
    decide
  · norm_num
  · norm_num

theorem highPopApplies_iff (ns : List Neighborhood) (s t : String) :
    highPopApplies ns s t = true ↔
      ∃ p q : ℕ, lookupPop ns s = some p ∧ lookupPop ns t = some q ∧
        p ≠ 0 ∧ q ≠ 0 ∧ (400000 ≤ p ∨ 400000 ≤ q) := by
  unfold highPopApplies
  cases hs : lookupPop ns s with
  | none =>
    simp only [Bool.false_eq_true, false_iff]
    intro ⟨p, q, hp, _⟩
    cases hp
  | some p =>
    cases ht : lookupPop ns t with
    | none =>
      simp only [Bool.false_eq_true, false_iff]
      intro ⟨p2, q, _, hq, _⟩
      cases hq
    | some q =>
      simp only [Bool.and_eq_true, Bool.or_eq_true, decide_eq_true_eq]
      constructor
      · intro ⟨⟨hp, hq⟩, hor⟩
        exact ⟨p, q, rfl, rfl, hp, hq, hor⟩
      · intro ⟨p2, q2, hp2, hq2, hpne, hqne, hor⟩
        injection hp2 with hp2
        injection hq2 with hq2
        subst hp2
        subst hq2
        exact ⟨⟨hpne, hqne⟩, hor⟩

/-- C6 amended — with `prioritize_high_population` enabled the selection
weight is `distance × maintenance` (existing) / `cost` (potential) times
`0.7` / `0.8` exactly when BOTH endpoints are neighborhoods with nonzero
recorded populations and at least one population is ≥ 400,000 (a facility
endpoint, or a missing or zero population, disables the discount), all times
the independent hospital factor. -/
theorem mst_highpop_discount_amended (prioPop prioHosp : Bool)
    (ns : List Neighborhood) (road : Road) (proad : PotentialRoad) :
    (existingRoadWeight prioPop prioHosp ns road =
      road.distance * ((11 - road.condition) * 10) *
        (if prioPop && highPopApplies ns road.src road.tgt then (7:ℚ)/10 else 1) *
        (if prioHosp && hospApplies road.src road.tgt then (6:ℚ)/10 else 1)) ∧
    (potentialRoadWeight prioPop prioHosp ns proad =
      proad.cost *
        (if prioPop && highPopApplies ns proad.src proad.tgt then (8:ℚ)/10 else 1) *
        (if prioHosp && hospApplies proad.src proad.tgt then (7:ℚ)/10 else 1)) ∧
    (highPopApplies ns road.src road.tgt = true ↔
      ∃ p q : ℕ, lookupPop ns road.src = some p ∧ lookupPop ns road.tgt = some q ∧
        p ≠ 0 ∧ q ≠ 0 ∧ (400000 ≤ p ∨ 400000 ≤ q)) := by
  refine ⟨?_, ?_, highPopApplies_iff ns road.src road.tgt⟩
  · unfold existingRoadWeight
    dsimp only
    by_cases h1 : prioPop && highPopApplies ns road.src road.tgt
    · rw [if_pos h1, if_pos h1]
      by_cases h2 : prioHosp && hospApplies road.src road.tgt
      · rw [if_pos h2, if_pos h2]
      · rw [if_neg h2, if_neg h2]
        ring
    · rw [if_neg h1, if_neg h1]
      by_cases h2 : prioHosp && hospApplies road.src road.tgt
      · rw [if_pos h2, if_pos h2]
        ring
      · rw [if_neg h2, if_neg h2]
        ring
  · unfold potentialRoadWeight
    dsimp only
    by_cases h1 : prioPop && highPopApplies ns proad.src proad.tgt
    · rw [if_pos h1, if_pos h1]
      by_cases h2 : prioHosp && hospApplies proad.src proad.tgt
      · rw [if_pos h2, if_pos h2]
      · rw [if_neg h2, if_neg h2]
        ring
    · rw [if_neg h1, if_neg h1]
      by_cases h2 : prioHosp && hospApplies proad.src proad.tgt
      · rw [if_pos h2, if_pos h2]
        ring
      · rw [if_neg h2, if_neg h2]
        ring

/-! ## Transit allocation invariants (C4) -/

theorem find?_fst_of_nodup {β : Type} (l : List (String × β))
    (hnd : (l.map (fun kv => kv.1)).Nodup) (kv : String × β) (hmem : kv ∈ l) :
    l.find? (fun x => x.1 = kv.1) = some kv := by
  induction l with
  | nil => cases hmem
  | cons a t ih =>
    simp only [List.map_cons, List.nodup_cons] at hnd
    rcases List.mem_cons.mp hmem with h | h
    · subst h
      exact List.find?_cons_of_pos _ (by simp)
    · have hne : ¬ a.1 = kv.1 := by
        intro hc
        exact hnd.1 (hc ▸ List.mem_map_of_mem (fun x => x.1) h)
      rw [List.find?_cons_of_neg _ (by simpa using hne)]
      exact ih hnd.2 h

theorem allocLookup_of_mem (alloc : List (String × ℤ))
    (hnd : (alloc.map (fun kv => kv.1)).Nodup) (kv : String × ℤ) (hmem : kv ∈ alloc) :
    allocLookup alloc kv.1 = kv.2 := by
  unfold allocLookup
  rw [find?_fst_of_nodup alloc hnd kv hmem]
  rfl

theorem incrAlloc_keys (alloc : List (String × ℤ)) (i : String) :
    (incrAlloc alloc i).map (fun kv => kv.1) = alloc.map (fun kv => kv.1) := by
  unfold incrAlloc
  rw [List.map_map]
  apply List.map_congr_left
  intro kv _
  simp only [Function.comp]
  by_cases h : kv.1 = i
  · rw [if_pos h]
  · rw [if_neg h]

theorem decrAlloc_keys (alloc : List (String × ℤ)) (i : String) :
    (decrAlloc alloc i).map (fun kv => kv.1) = alloc.map (fun kv => kv.1) := by
  unfold decrAlloc
  rw [List.map_map]
  apply List.map_congr_left
  intro kv _
  simp only [Function.comp]
  by_cases h : kv.1 = i
  · rw [if_pos h]
  · rw [if_neg h]

theorem incrAlloc_not_mem (alloc : List (String × ℤ)) (i : String)
    (h : i ∉ alloc.map (fun kv => kv.1)) : incrAlloc alloc i = alloc := by
  unfold incrAlloc
  induction alloc with
  | nil => rfl
  | cons kv t ih =>
    simp only [List.map_cons, List.mem_cons] at h
    push_neg at h
    rw [List.map_cons, if_neg (fun hc => h.1 hc.symm)]
    rw [ih h.2]

theorem decrAlloc_not_mem (alloc : List (String × ℤ)) (i : String)
    (h : i ∉ alloc.map (fun kv => kv.1)) : decrAlloc alloc i = alloc := by
  unfold decrAlloc
  induction alloc with
  | nil => rfl
  | cons kv t ih =>
    simp only [List.map_cons, List.mem_cons] at h
    push_neg at h
    rw [List.map_cons, if_neg (fun hc => h.1 hc.symm)]
    rw [ih h.2]

theorem incrAlloc_sum (alloc : List (String × ℤ)) (i : String)
    (hnd : (alloc.map (fun kv => kv.1)).Nodup)
    (hmem : i ∈ alloc.map (fun kv => kv.1)) :
    ((incrAlloc alloc i).map (fun kv => kv.2)).sum =
      (alloc.map (fun kv => kv.2)).sum + 1 := by
  induction alloc with
  | nil => cases hmem
  | cons kv t ih =>
    simp only [List.map_cons, List.nodup_cons] at hnd
    by_cases h : kv.1 = i
    · have hnot : i ∉ t.map (fun kv => kv.1) := h ▸ hnd.1
      unfold incrAlloc
      rw [List.map_cons, if_pos h]
      have ht : t.map (fun kv2 => if kv2.1 = i then (kv2.1, kv2.2 + 1) else kv2) = t := by
        have := incrAlloc_not_mem t i hnot
        unfold incrAlloc at this
        exact this
      rw [ht]
      simp only [List.map_cons, List.sum_cons]
      ring
    · have hmem2 : i ∈ t.map (fun kv => kv.1) := by
        rw [List.map_cons] at hmem
        rcases List.mem_cons.mp hmem with hc | hc
        · exact absurd hc.symm h
        · exact hc
      unfold incrAlloc
      rw [List.map_cons, if_neg h]
      have := ih hnd.2 hmem2
      unfold incrAlloc at this
      simp only [List.map_cons, List.sum_cons]
      rw [this]
      ring

theorem decrAlloc_sum (alloc : List (String × ℤ)) (i : String)
    (hnd : (alloc.map (fun kv => kv.1)).Nodup)
    (hmem : i ∈ alloc.map (fun kv => kv.1)) :
    ((decrAlloc alloc i).map (fun kv => kv.2)).sum =
      (alloc.map (fun kv => kv.2)).sum - 1 := by
  induction alloc with
  | nil => cases hmem
  | cons kv t ih =>
    simp only [List.map_cons, List.nodup_cons] at hnd
    by_cases h : kv.1 = i
    · have hnot : i ∉ t.map (fun kv => kv.1) := h ▸ hnd.1
      unfold decrAlloc
      rw [List.map_cons, if_pos h]
      have ht : t.map (fun kv2 => if kv2.1 = i then (kv2.1, kv2.2 - 1) else kv2) = t := by
        have := decrAlloc_not_mem t i hnot
        unfold decrAlloc at this
        exact this
      rw [ht]
      simp only [List.map_cons, List.sum_cons]
      ring
    · have hmem2 : i ∈ t.map (fun kv => kv.1) := by
        rw [List.map_cons] at hmem
        rcases List.mem_cons.mp hmem with hc | hc
        · exact absurd hc.symm h
        · exact hc
      unfold decrAlloc
      rw [List.map_cons, if_neg h]
      have := ih hnd.2 hmem2
      unfold decrAlloc at this
      simp only [List.map_cons, List.sum_cons]
      rw [this]
      ring

theorem incrAlloc_min (alloc : List (String × ℤ)) (i : String)
    (h : ∀ kv ∈ alloc, 1 ≤ kv.2) : ∀ kv ∈ incrAlloc alloc i, 1 ≤ kv.2 := by
  intro kv hkv
  obtain ⟨kv0, hkv0, hmap⟩ := List.mem_map.mp hkv
  by_cases hc : kv0.1 = i
  · rw [if_pos hc] at hmap
    rw [← hmap]
    have := h kv0 hkv0
    omega
  · rw [if_neg hc] at hmap
    rw [← hmap]
    exact h kv0 hkv0

theorem decrAlloc_min (alloc : List (String × ℤ)) (i : String)
    (hnd : (alloc.map (fun kv => kv.1)).Nodup)
    (h : ∀ kv ∈ alloc, 1 ≤ kv.2) (h2 : 2 ≤ allocLookup alloc i) :
    ∀ kv ∈ decrAlloc alloc i, 1 ≤ kv.2 := by
  intro kv hkv
  obtain ⟨kv0, hkv0, hmap⟩ := List.mem_map.mp hkv
  by_cases hc : kv0.1 = i
  · rw [if_pos hc] at hmap
    rw [← hmap]
    have hl : allocLookup alloc kv0.1 = kv0.2 := allocLookup_of_mem alloc hnd kv0 hkv0
    rw [hc] at hl
    omega
  · rw [if_neg hc] at hmap
    rw [← hmap]
    exact h kv0 hkv0

theorem exists_ge_two (l : List (String × ℤ)) (h1 : ∀ kv ∈ l, 1 ≤ kv.2)
    (h2 : (l.length : ℤ) < (l.map (fun kv => kv.2)).sum) : ∃ kv ∈ l, 2 ≤ kv.2 := by
  induction l with
  | nil => simp at h2
  | cons kv t ih =>
    by_cases hc : 2 ≤ kv.2
    · exact ⟨kv, List.mem_cons_self kv t, hc⟩
    · have hone : kv.2 = 1 := by
        have := h1 kv (List.mem_cons_self kv t)
        omega
      have ht : (t.length : ℤ) < (t.map (fun kv => kv.2)).sum := by
        simp only [List.length_cons, List.map_cons, List.sum_cons] at h2
        push_cast at h2
        omega
      obtain ⟨kv2, hkv2, hge⟩ := ih (fun x hx => h1 x (List.mem_cons_of_mem kv hx)) ht
      exact ⟨kv2, List.mem_cons_of_mem kv hkv2, hge⟩

theorem pickAdd_mem (alloc : List (String × ℤ)) : pickAdd alloc ∈ routeIds := by
  unfold pickAdd
  have hperm := List.perm_insertionSort (fun a b : String × ℚ => b.2 ≤ a.2)
    (bus_routes.map (fun r => (r.id, addValue alloc r)))
  cases hs : List.insertionSort (fun a b : String × ℚ => b.2 ≤ a.2)
      (bus_routes.map (fun r => (r.id, addValue alloc r))) with
  | nil =>
    exfalso
    rw [hs] at hperm
    have hlen := hperm.length_eq
    simp only [List.length_nil, List.length_map] at hlen
    exact absurd hlen.symm (by decide)
  | cons hd tl =>
    rw [hs] at hperm
    have hmem : hd ∈ bus_routes.map (fun r => (r.id, addValue alloc r)) :=
      hperm.mem_iff.mp (List.mem_cons_self hd tl)
    obtain ⟨r, hr, hmap⟩ := List.mem_map.mp hmem
    simp only [List.headD_cons]
    rw [← hmap]
    exact List.mem_map_of_mem (fun r => r.id) hr

theorem pickRemove_mem (alloc : List (String × ℤ)) : pickRemove alloc ∈ routeIds := by
  unfold pickRemove
  have hperm := List.perm_insertionSort (fun a b : String × WithTop ℚ => a.2 ≤ b.2)
    (bus_routes.map (fun r => (r.id, removeCost alloc r)))
  cases hs : List.insertionSort (fun a b : String × WithTop ℚ => a.2 ≤ b.2)
      (bus_routes.map (fun r => (r.id, removeCost alloc r))) with
  | nil =>
    exfalso
    rw [hs] at hperm
    have hlen := hperm.length_eq
    simp only [List.length_nil, List.length_map] at hlen
    exact absurd hlen.symm (by decide)
  | cons hd tl =>
    rw [hs] at hperm
    have hmem : hd ∈ bus_routes.map (fun r => (r.id, removeCost alloc r)) :=
      hperm.mem_iff.mp (List.mem_cons_self hd tl)
    obtain ⟨r, hr, hmap⟩ := List.mem_map.mp hmem
    simp only [List.headD_cons]
    rw [← hmap]
    exact List.mem_map_of_mem (fun r => r.id) hr

theorem pickRemove_ge_two (alloc : List (String × ℤ))
    (hnd : (alloc.map (fun kv => kv.1)).Nodup)
    (hkeys : alloc.map (fun kv => kv.1) = routeIds)
    (hex : ∃ kv ∈ alloc, 2 ≤ kv.2) :
    2 ≤ allocLookup alloc (pickRemove alloc) := by
  obtain ⟨kv, hkv, h2⟩ := hex
  have hkey : kv.1 ∈ routeIds := hkeys ▸ List.mem_map_of_mem (fun kv => kv.1) hkv
  obtain ⟨r, hr, hrid⟩ := List.mem_map.mp hkey
  have hlook : allocLookup alloc r.id = kv.2 := by
    rw [hrid]
    exact allocLookup_of_mem alloc hnd kv hkv
  have hfin : removeCost alloc r =
      ((totalWait r (allocLookup alloc r.id - 1) -
        totalWait r (allocLookup alloc r.id) : ℚ) : WithTop ℚ) := by
    unfold removeCost
    rw [if_neg (by omega)]
  have hsorted := List.sorted_insertionSort (fun a b : String × WithTop ℚ => a.2 ≤ b.2)
    (bus_routes.map (fun r => (r.id, removeCost alloc r)))
  have hperm := List.perm_insertionSort (fun a b : String × WithTop ℚ => a.2 ≤ b.2)
    (bus_routes.map (fun r => (r.id, removeCost alloc r)))
  unfold pickRemove
  cases hs : List.insertionSort (fun a b : String × WithTop ℚ => a.2 ≤ b.2)
      (bus_routes.map (fun r => (r.id, removeCost alloc r))) with
  | nil =>
    exfalso
    rw [hs] at hperm
    have hlen := hperm.length_eq
    simp only [List.length_nil, List.length_map] at hlen
    exact absurd hlen.symm (by decide)
  | cons hd tl =>
    simp only [List.headD_cons]
    rw [hs] at hperm hsorted
    have hx : (r.id, removeCost alloc r) ∈ hd :: tl :=
      hperm.mem_iff.mpr (List.mem_map_of_mem _ hr)
    have hhdle : hd.2 ≤ removeCost alloc r := by
      rcases List.mem_cons.mp hx with hc | hc
      · rw [← hc]
      · exact (List.pairwise_cons.mp hsorted).1 _ hc
    have hhdlt : hd.2 ≠ ⊤ := by
      intro hc
      rw [hc, top_le_iff, hfin] at hhdle
      cases hhdle
    have hhdmem : hd ∈ bus_routes.map (fun r => (r.id, removeCost alloc r)) :=
      hperm.mem_iff.mp (List.mem_cons_self hd tl)
    obtain ⟨r2, hr2, hmap2⟩ := List.mem_map.mp hhdmem
    have hhd2 : hd.2 = removeCost alloc r2 := by rw [← hmap2]
    have hhd1 : hd.1 = r2.id := by rw [← hmap2]
    rw [hhd1]
    by_contra hcon
    push_neg at hcon
    have : removeCost alloc r2 = ⊤ := by
      unfold removeCost
      rw [if_pos (by omega)]
    exact hhdlt (by rw [hhd2, this])

theorem addLoop_spec : ∀ (k : ℕ) (alloc : List (String × ℤ)),
    alloc.map (fun kv => kv.1) = routeIds → (∀ kv ∈ alloc, 1 ≤ kv.2) →
    (addLoop k alloc).map (fun kv => kv.1) = routeIds ∧
    (∀ kv ∈ addLoop k alloc, 1 ≤ kv.2) ∧
    ((addLoop k alloc).map (fun kv => kv.2)).sum =
      (alloc.map (fun kv => kv.2)).sum + k := by
  intro k
  induction k with
  | zero =>
    intro alloc hk hm
    exact ⟨hk, hm, by simp [addLoop]⟩
  | succ k ih =>
    intro alloc hk hm
    have hnd : (alloc.map (fun kv => kv.1)).Nodup := by
      rw [hk]
      decide
    have hmem : pickAdd alloc ∈ alloc.map (fun kv => kv.1) := by
      rw [hk]
      exact pickAdd_mem alloc
    have hstep := ih (incrAlloc alloc (pickAdd alloc))
      (by rw [incrAlloc_keys]; exact hk) (incrAlloc_min _ _ hm)
    refine ⟨hstep.1, hstep.2.1, ?_⟩
    show ((addLoop k (incrAlloc alloc (pickAdd alloc))).map (fun kv => kv.2)).sum = _
    rw [hstep.2.2, incrAlloc_sum alloc _ hnd hmem]
    push_cast
    ring

theorem removeLoop_spec : ∀ (k : ℕ) (alloc : List (String × ℤ)),
    alloc.map (fun kv => kv.1) = routeIds → (∀ kv ∈ alloc, 1 ≤ kv.2) →
    (10 : ℤ) + k ≤ (alloc.map (fun kv => kv.2)).sum →
    (removeLoop k alloc).map (fun kv => kv.1) = routeIds ∧
    (∀ kv ∈ removeLoop k alloc, 1 ≤ kv.2) ∧
    ((removeLoop k alloc).map (fun kv => kv.2)).sum =
      (alloc.map (fun kv => kv.2)).sum - k := by
  intro k
  induction k with
  | zero =>
    intro alloc hk hm _
    exact ⟨hk, hm, by simp [removeLoop]⟩
  | succ k ih =>
    intro alloc hk hm hbound
    have hnd : (alloc.map (fun kv => kv.1)).Nodup := by
      rw [hk]
      decide
    have hlen : alloc.length = 10 := by
      have := congrArg List.length hk
      simpa using this
    have hex : ∃ kv ∈ alloc, 2 ≤ kv.2 := by
      apply exists_ge_two alloc hm
      rw [hlen]
      push_cast at hbound
      omega
    have hge2 := pickRemove_ge_two alloc hnd hk hex
    have hmem : pickRemove alloc ∈ alloc.map (fun kv => kv.1) := by
      rw [hk]
      exact pickRemove_mem alloc
    have hstep := ih (decrAlloc alloc (pickRemove alloc))
      (by rw [decrAlloc_keys]; exact hk)
      (decrAlloc_min _ _ hnd hm hge2)
      (by
        rw [decrAlloc_sum alloc _ hnd hmem]
        push_cast at hbound ⊢
        omega)
    refine ⟨hstep.1, hstep.2.1, ?_⟩
    show ((removeLoop k (decrAlloc alloc (pickRemove alloc))).map (fun kv => kv.2)).sum = _
    rw [hstep.2.2, decrAlloc_sum alloc _ hnd hmem]
    push_cast
    ring

/-- C4 — whenever `total_buses` is at least the number of catalog routes
(10), `run_transit_optimization` returns an allocation summing exactly to
`total_buses` with every route keeping at least one bus. -/
theorem run_transit_conservation (total_buses : ℤ) (max_waiting_time : ℚ)
    (optimize_transfers : Bool) (h : 10 ≤ total_buses) :
    ((run_transit_optimization total_buses max_waiting_time optimize_transfers).map
        (fun kv => kv.2)).sum = total_buses ∧
    (∀ kv ∈ run_transit_optimization total_buses max_waiting_time optimize_transfers,
      1 ≤ kv.2) := by
  unfold run_transit_optimization
  dsimp only
  have halloc0keys : (bus_routes.map (fun r => (r.id, r.current_buses))).map
      (fun kv => kv.1) = routeIds := by
    rw [List.map_map]
    rfl
  have hmin0 : ∀ kv ∈ bus_routes.map (fun r => (r.id, r.current_buses)), 1 ≤ kv.2 := by
    decide
  have hsum0 : ((bus_routes.map (fun r => (r.id, r.current_buses))).map
      (fun kv => kv.2)).sum = 102 := by
    decide
  rw [hsum0]
  by_cases hgt : total_buses - 102 > 0
  · rw [if_pos hgt]
    obtain ⟨_, hm, hs⟩ := addLoop_spec (total_buses - 102).toNat _ halloc0keys hmin0
    refine ⟨?_, hm⟩
    rw [hs, hsum0]
    have hcast : (((total_buses - 102).toNat : ℤ)) = total_buses - 102 :=
      Int.toNat_of_nonneg (by omega)
    omega
  · rw [if_neg hgt]
    by_cases hlt : total_buses - 102 < 0
    · rw [if_pos hlt]
      have hcast : (((-(total_buses - 102)).toNat : ℤ)) = -(total_buses - 102) :=
        Int.toNat_of_nonneg (by omega)
      obtain ⟨_, hm, hs⟩ := removeLoop_spec (-(total_buses - 102)).toNat _
        halloc0keys hmin0 (by rw [hsum0]; omega)
      refine ⟨?_, hm⟩
      rw [hs, hsum0]
      omega
    · rw [if_neg hlt]
      refine ⟨by rw [hsum0]; omega, hmin0⟩

/-- Witness for C4 at `total_buses = 50`. -/
theorem run_transit_conservation_witness :
    (10 : ℤ) ≤ 50 ∧
    (((run_transit_optimization 50 10 false).map (fun kv => kv.2)).sum = 50 ∧
     (∀ kv ∈ run_transit_optimization 50 10 false, 1 ≤ kv.2)) :=
  ⟨by norm_num, run_transit_conservation 50 10 false (by norm_num)⟩

/-! ## Signal optimizer invariants (C5, C9) -/

/-- C5 — for every priority policy, whenever `run_greedy_algorithm` returns a
signal plan, each road satisfies `green_time + red_time = max_cycle_length`
(hence their total is `max_cycle_length × num_roads`), and the normalized
`green_times` dictionary sums exactly to `max_cycle_length`.  (Hypothesis:
the intersection lists its roads without repetition, as the source's
dictionaries presuppose.) -/
theorem run_greedy_cycle_invariant (tf : List (String × List (String × ℝ)))
    (roads : List String) (timePeriod priority : String) (C : ℤ)
    (hnd : roads.Nodup) :
    ∀ out : GreedyOut, run_greedy_algorithm tf roads timePeriod priority C = .ok out →
      (∀ pr ∈ out.plan, pr.2.1 + pr.2.2 = C) ∧
      (out.green_times.map (fun kv => kv.2)).sum = (C : ℝ) := by
  intro out h
  unfold run_greedy_algorithm at h
  cases htd : buildTrafficData tf timePeriod roads with
  | error e => rw [htd] at h; cases h
  | ok td =>
    rw [htd] at h
    dsimp only at h
    cases hg : (if priority = "Minimize Average Delay" then greensMAD td roads (C : ℝ)
        else if priority = "Prioritize High-Traffic Roads" then greensPHT td roads (C : ℝ)
        else greensBWT td roads (C : ℝ)) with
    | error e => rw [hg] at h; cases h
    | ok greens =>
      rw [hg] at h
      dsimp only at h
      by_cases htg : (greens.map (fun kv => kv.2)).sum = 0
      · rw [if_pos htg] at h
        cases h
      · rw [if_neg htg] at h
        by_cases hsf : (td.map (fun e => e.flow)).sum = 0
        · rw [if_pos hsf] at h
          cases h
        · rw [if_neg hsf] at h
          by_cases hlen : roads.length = 0
          · rw [if_pos hlen] at h
            cases h
          · rw [if_neg hlen] at h
            by_cases hfa : ((td.map (fun e => e.flow * (((C : ℝ) -
                (C : ℝ) / (roads.length : ℝ)) / 2))).sum /
                (td.map (fun e => e.flow)).sum) = 0
            · rw [if_pos hfa] at h
              cases h
            · rw [if_neg hfa] at h
              injection h with h2
              rw [← h2]
              constructor
              · intro pr hpr
                obtain ⟨rid, _, hmap⟩ := List.mem_map.mp hpr
                rw [← hmap]
                dsimp only
                omega
              · show ((greens.map (fun kv =>
                  (kv.1, kv.2 * ((C : ℝ) / (greens.map (fun kv => kv.2)).sum)))).map
                    (fun kv => kv.2)).sum = (C : ℝ)
                rw [List.map_map]
                have hcomp : ((fun kv : String × ℝ => kv.2) ∘ (fun kv : String × ℝ =>
                    (kv.1, kv.2 * ((C : ℝ) / (greens.map (fun kv => kv.2)).sum)))) =
                    (fun kv : String × ℝ =>
                      kv.2 * ((C : ℝ) / (greens.map (fun kv => kv.2)).sum)) := rfl
                rw [hcomp, List.sum_map_mul_right]
                field_simp

/-- Witness for C5: two roads with equal morning-peak flows, delay-minimizing
policy, 80-second cycle. -/
theorem run_greedy_cycle_invariant_witness :
    (["R1", "R2"] : List String).Nodup ∧
    (∀ out : GreedyOut,
      run_greedy_algorithm
        [("R1", [("morning_peak", 600)]), ("R2", [("morning_peak", 600)])]
        ["R1", "R2"] "morning_peak" "Minimize Average Delay" 80 = .ok out →
      (∀ pr ∈ out.plan, pr.2.1 + pr.2.2 = 80) ∧
      (out.green_times.map (fun kv => kv.2)).sum = ((80 : ℤ) : ℝ)) :=
  ⟨by decide,
   run_greedy_cycle_invariant
     [("R1", [("morning_peak", 600)]), ("R2", [("morning_peak", 600)])]
     ["R1", "R2"] "morning_peak" "Minimize Average Delay" 80 (by decide)⟩

theorem buildTrafficData_zero (tf : List (String × List (String × ℝ)))
    (timePeriod : String) :
    ∀ roads : List String,
      (∀ rid ∈ roads, ∀ kv, tf.find? (fun kv2 => kv2.1 = rid) = some kv →
        (roadFlowFor timePeriod kv.2 = .ok 0 ∨
         roadFlowFor timePeriod kv.2 = .error .zeroDivision)) →
      buildTrafficData tf timePeriod roads = .error .zeroDivision ∨
      ∃ td, buildTrafficData tf timePeriod roads = .ok td ∧ ∀ e ∈ td, e.flow = 0 := by
  intro roads
  induction roads with
  | nil =>
    intro _
    exact Or.inr ⟨[], rfl, fun e he => absurd he (List.not_mem_nil e)⟩
  | cons road rest ih =>
    intro hz
    have hzrest : ∀ rid ∈ rest, ∀ kv, tf.find? (fun kv2 => kv2.1 = rid) = some kv →
        (roadFlowFor timePeriod kv.2 = .ok 0 ∨
         roadFlowFor timePeriod kv.2 = .error .zeroDivision) :=
      fun rid hrid => hz rid (List.mem_cons_of_mem road hrid)
    unfold buildTrafficData
    cases hf : tf.find? (fun kv => kv.1 = road) with
    | none =>
      dsimp only
      exact ih hzrest
    | some kv =>
      dsimp only
      rcases hz road (List.mem_cons_self road rest) kv hf with hok | herr
      · rw [hok]
        dsimp only
        rcases ih hzrest with hrec | ⟨td, htd, hall⟩
        · rw [hrec]
          exact Or.inl rfl
        · rw [htd]
          dsimp only
          refine Or.inr ⟨_, rfl, ?_⟩
          intro e he
          rcases List.mem_cons.mp he with he1 | he2
          · rw [he1]
          · rcases List.mem_cons.mp he2 with he3 | he4
            · rw [he3]
              show (0 : ℝ) * outboundRatio timePeriod = 0
              exact zero_mul _
            · exact hall e he4
      · rw [herr]
        exact Or.inl rfl

theorem roadFlow_zero (td : List TrafficEntry) (hz : ∀ e ∈ td, e.flow = 0)
    (rid : String) : roadFlow td rid = 0 := by
  unfold roadFlow
  apply List.sum_eq_zero
  intro x hx
  obtain ⟨e, he, hxe⟩ := List.mem_map.mp hx
  rw [← hxe]
  exact hz e (List.mem_filter.mp he).1

theorem greensMAD_zero (td : List TrafficEntry) (roads : List String) (C : ℝ)
    (hall : ∀ e ∈ td, e.flow = 0) :
    greensMAD td roads C = .error .zeroDivision ∨ greensMAD td roads C = .ok [] := by
  unfold greensMAD
  dsimp only
  by_cases hr : roads = []
  · rw [if_pos hr]
    exact Or.inr rfl
  · rw [if_neg hr]
    have htf : (td.map (fun e => e.flow)).sum = 0 := by
      apply List.sum_eq_zero
      intro x hx
      obtain ⟨e, he, hxe⟩ := List.mem_map.mp hx
      rw [← hxe]
      exact hall e he
    rw [if_pos htf]
    exact Or.inl rfl

theorem greensPHT_zero (td : List TrafficEntry) (roads : List String) (C : ℝ)
    (hall : ∀ e ∈ td, e.flow = 0) :
    greensPHT td roads C = .error .zeroDivision ∨ greensPHT td roads C = .ok [] := by
  unfold greensPHT
  dsimp only
  by_cases hr : roads = []
  · subst hr
    exact Or.inr rfl
  · have hsne : List.insertionSort (fun a b : String × ℝ => b.2 ≤ a.2)
        (roads.map (fun rid => (rid, roadFlow td rid))) ≠ [] := by
      intro hc
      have hperm := List.perm_insertionSort (fun a b : String × ℝ => b.2 ≤ a.2)
        (roads.map (fun rid => (rid, roadFlow td rid)))
      rw [hc] at hperm
      have hlen := hperm.length_eq
      simp only [List.length_nil, List.length_map] at hlen
      exact hr (List.length_eq_zero.mp hlen.symm)
    rw [if_neg hsne]
    have htw : ((List.insertionSort (fun a b : String × ℝ => b.2 ≤ a.2)
        (roads.map (fun rid => (rid, roadFlow td rid)))).map
          (fun kv => kv.2 ^ (15/10 : ℝ))).sum = 0 := by
      apply List.sum_eq_zero
      intro x hx
      obtain ⟨kv, hkv, hxkv⟩ := List.mem_map.mp hx
      have hperm := List.perm_insertionSort (fun a b : String × ℝ => b.2 ≤ a.2)
        (roads.map (fun rid => (rid, roadFlow td rid)))
      have hkv2 : kv ∈ roads.map (fun rid => (rid, roadFlow td rid)) :=
        hperm.mem_iff.mp hkv
      obtain ⟨rid, _, hmap⟩ := List.mem_map.mp hkv2
      have hkvflow : kv.2 = 0 := by
        rw [← hmap]
        exact roadFlow_zero td hall rid
      rw [← hxkv, hkvflow]
      exact Real.zero_rpow (by norm_num)
    rw [if_pos htw]
    exact Or.inl rfl

theorem greensBWT_zero (td : List TrafficEntry) (roads : List String) (C : ℝ)
    (hall : ∀ e ∈ td, e.flow = 0) :
    greensBWT td roads C = .error .zeroDivision ∨ greensBWT td roads C = .ok [] := by
  unfold greensBWT
  dsimp only
  by_cases hr : roads = []
  · rw [if_pos hr]
    exact Or.inr rfl
  · rw [if_neg hr]
    have htw : ((roads.map (fun rid => (rid, roadFlow td rid ^ (5/10 : ℝ)))).map
        (fun kv => kv.2)).sum = 0 := by
      apply List.sum_eq_zero
      intro x hx
      obtain ⟨kv, hkv, hxkv⟩ := List.mem_map.mp hx
      obtain ⟨rid, _, hmap⟩ := List.mem_map.mp hkv
      rw [← hxkv, ← hmap]
      show roadFlow td rid ^ (5/10 : ℝ) = 0
      rw [roadFlow_zero td hall rid]
      exact Real.zero_rpow (by norm_num)
    rw [if_pos htw]
    exact Or.inl rfl

/-- C9 — when every road at the intersection either has no traffic record or
a record yielding flow 0 for the chosen time bucket (an `all_day` average
over an empty record itself raises `ZeroDivisionError`),
`run_greedy_algorithm` raises an unguarded `ZeroDivisionError` rather than
returning a signal plan, for every priority policy. -/
theorem run_greedy_zero_flow_error (tf : List (String × List (String × ℝ)))
    (roads : List String) (timePeriod priority : String) (C : ℤ)
    (hzero : ∀ rid ∈ roads, ∀ kv, tf.find? (fun kv2 => kv2.1 = rid) = some kv →
      (roadFlowFor timePeriod kv.2 = .ok 0 ∨
       roadFlowFor timePeriod kv.2 = .error .zeroDivision)) :
    run_greedy_algorithm tf roads timePeriod priority C = .error .zeroDivision := by
  unfold run_greedy_algorithm
  rcases buildTrafficData_zero tf timePeriod roads hzero with herr | ⟨td, htd, hall⟩
  · rw [herr]
  · rw [htd]
    dsimp only
    have hbranch : (if priority = "Minimize Average Delay" then greensMAD td roads (C : ℝ)
        else if priority = "Prioritize High-Traffic Roads" then greensPHT td roads (C : ℝ)
        else greensBWT td roads (C : ℝ)) = .error .zeroDivision ∨
        (if priority = "Minimize Average Delay" then greensMAD td roads (C : ℝ)
        else if priority = "Prioritize High-Traffic Roads" then greensPHT td roads (C : ℝ)
        else greensBWT td roads (C : ℝ)) = .ok [] := by
      by_cases h1 : priority = "Minimize Average Delay"
      · rw [if_pos h1]
        exact greensMAD_zero td roads (C : ℝ) hall
      · rw [if_neg h1]
        by_cases h2 : priority = "Prioritize High-Traffic Roads"
        · rw [if_pos h2]
          exact greensPHT_zero td roads (C : ℝ) hall
        · rw [if_neg h2]
          exact greensBWT_zero td roads (C : ℝ) hall
    rcases hbranch with hb | hb
    · rw [hb]
    · rw [hb]
      dsimp only
      rw [if_pos (by simp : ((([] : List (String × ℝ)).map (fun kv => kv.2)).sum = 0))]

/-- Witness for C9: one road with no traffic record at all. -/
theorem run_greedy_zero_flow_error_witness :
    (∀ rid ∈ (["R1"] : List String), ∀ kv : String × List (String × ℝ),
      ([] : List (String × List (String × ℝ))).find? (fun kv2 => kv2.1 = rid) = some kv →
      (roadFlowFor "morning_peak" kv.2 = .ok 0 ∨
       roadFlowFor "morning_peak" kv.2 = .error .zeroDivision)) ∧
    run_greedy_algorithm [] ["R1"] "morning_peak" "Minimize Average Delay" 60 =
      .error .zeroDivision :=
  ⟨(by
    intro rid _ kv hkv
    cases hkv),
   run_greedy_zero_flow_error [] ["R1"] "morning_peak" "Minimize Average Delay" 60
     (by
       intro rid _ kv hkv
       cases hkv)⟩

/-! ## Emergency routing (`run_a_star`): C1 and C7 -/

theorem c1_filtered_eq : filteredGraph c1Graph 6 =
    ⟨["N1", "F9", "F10"], [("N1", "F9", ⟨some 1, none, some 10⟩)]⟩ := by
  unfold filteredGraph c1Graph
  norm_num

theorem c1_haspath : hasPathToHospital
    (⟨["N1", "F9", "F10"], [("N1", "F9", ⟨some 1, none, some 10⟩)]⟩ : Graph) "N1" = true := by
  rfl

theorem c1_EG_eq : emergencyGraph c1Graph 6 "N1" =
    ⟨["N1", "F9", "F10"], [("N1", "F9", ⟨some 1, none, some 10⟩)]⟩ := by
  unfold emergencyGraph
  rw [c1_filtered_eq, if_pos]
  rw [c1_haspath]

theorem c1_loop_eq (sqrtFn : ℚ → ℚ) :
    aStarLoop (⟨["N1", "F9", "F10"], [("N1", "F9", ⟨some 1, none, some 10⟩)]⟩ : Graph) "F10"
      (heuristic sqrtFn [] c1Facilities 0 0) 4 [((0 : WithTop ℚ), "N1")] (fun _ => none)
      (fun n => if n = "N1" then (0 : WithTop ℚ) else ⊤) = some none := by
  simp +decide only [aStarLoop, popMin, relaxNeighbor, pushOrReplace, replaceFirst, tupLt,
    adj, edgeBetween, heuristic, c1Facilities, List.foldl, List.filterMap, List.any,
    Option.getD]
  norm_num [WithTop.coe_lt_top, ← WithTop.coe_add, WithTop.coe_lt_coe, ← WithTop.coe_zero]
  simp +decide only [popMin, tupLt]

theorem c1_run_eq (sqrtFn : ℚ → ℚ) :
    run_a_star c1Graph "N1" (some "F10") [] c1Facilities sqrtFn 6 4 =
      some (.ok (.failure "No path found to hospital")) := by
  unfold run_a_star
  rw [c1_EG_eq]
  dsimp only
  rw [show facilityFind c1Facilities (some "F10") =
    some ⟨"F10", "Hospital", 0, 0⟩ from rfl]
  dsimp only
  rw [c1_loop_eq sqrtFn]

theorem c7_filtered_eq : filteredGraph c7Graph 6 = ⟨["N1", "F9"], []⟩ := by
  unfold filteredGraph c7Graph
  norm_num

theorem c7_EG_eq : emergencyGraph c7Graph 6 "N1" =
    ⟨["N1", "F9"], [("N1", "F9", ⟨some 16, none, some 3⟩)]⟩ := by
  unfold emergencyGraph
  rw [c7_filtered_eq]
  rw [show hasPathToHospital (⟨["N1", "F9"], []⟩ : Graph) "N1" = false from rfl]
  unfold penalizedGraph c7Graph
  norm_num

theorem c7_run_eq :
    run_a_star c7Graph "N1" (some "F9") [] c7Facilities id 6 4 =
      some (.ok (.success ["N1", "F9"] (240/23) ((12 : ℚ) : WithTop ℚ))) := by
  unfold run_a_star
  rw [c7_EG_eq]
  dsimp only
  rw [show facilityFind c7Facilities (some "F9") =
    some ⟨"F9", "Hospital", 0, 0⟩ from rfl]
  dsimp only
  simp +decide only [aStarLoop, popMin, relaxNeighbor, pushOrReplace, replaceFirst,
    tupLt, adj, edgeBetween, heuristic, c7Facilities, List.foldl, List.filterMap,
    Option.getD, reconstruct, simplePaths, pathsAux, minPathCost, pathCost,
    distWeight, List.zip, List.zipWith, id_eq]
  norm_num [WithTop.coe_lt_top, ← WithTop.coe_add, WithTop.coe_lt_coe,
    ← WithTop.coe_zero]
  simp +decide only [List.foldl, List.zipWith, List.filter, List.flatMap, List.map,
    edgeTime, edgeBetween, pathCost, distWeight, List.foldr, c7Graph,
    List.find?, Option.getD]
  norm_num [WithTop.map_coe, WithTop.coe_eq_coe]
  rw [show ((10 : WithTop ℚ)) = ((10 : ℚ) : WithTop ℚ) from rfl,
    show ((12 : WithTop ℚ)) = ((12 : ℚ) : WithTop ℚ) from rfl, WithTop.map_coe,
    WithTop.coe_eq_coe]
  norm_num

theorem foldl_timeSum (EG : Graph) :
    ∀ (p : List String) (a : ℚ),
      (p.zip p.tail).foldl (fun acc uv => acc + edgeTime EG uv.1 uv.2) a =
        a + pathTimeSum EG p := by
  intro p
  induction p with
  | nil => intro a; simp [pathTimeSum]
  | cons x xs ih =>
    intro a
    cases xs with
    | nil => simp [pathTimeSum]
    | cons y r =>
      simp only [List.tail_cons] at ih ⊢
      rw [List.zip_cons_cons, List.foldl_cons]
      dsimp only
      rw [ih (a + edgeTime EG x y),
        show pathTimeSum EG (x :: y :: r) =
          edgeTime EG x y + pathTimeSum EG (y :: r) from rfl]
      ring

/-- C1 — refuted by a failing input: with `min_road_condition = 6`, node `N1`
joined to hospital `F9` by a condition-10 road and to hospital `F10` by a
condition-3 road, and `F10` the requested hospital, the pre-check of lines
235–242 passes (a path to *some* hospital, namely `F9`, survives the filter),
so the condition-3 edge is removed and `run_a_star` reports
`"No path found to hospital"` even though the unfiltered graph connects `N1`
to `F10` directly, for every `math.sqrt` implementation. -/
theorem run_a_star_filter_disconnect_bug (sqrtFn : ℚ → ℚ) :
    ConnG c1Graph "N1" "F10" ∧
    run_a_star c1Graph "N1" (some "F10") [] c1Facilities sqrtFn 6 4 =
      some (.ok (.failure "No path found to hospital")) :=
  ⟨Relation.ReflTransGen.single
      ⟨("N1", "F10", ⟨some 1, none, some 3⟩),
       List.mem_cons_of_mem _ (List.mem_cons_self _ _), Or.inl ⟨rfl, rfl⟩⟩,
   c1_run_eq sqrtFn⟩

/-- Witness for C1 at `sqrtFn = id` (the heuristic is never evaluated on
this input). -/
theorem run_a_star_filter_disconnect_bug_witness :
    ConnG c1Graph "N1" "F10" ∧
    run_a_star c1Graph "N1" (some "F10") [] c1Facilities id 6 4 =
      some (.ok (.failure "No path found to hospital")) :=
  run_a_star_filter_disconnect_bug id

/-- C7 — counterexample: a single condition-3, 10 km road from `N1` to
hospital `F9` with `min_road_condition = 6` takes the penalty fallback
(lines 249–257), which multiplies the stored distance by `1.6` in place; the
reported travel time `240/23` minutes is computed from that penalized
distance (16 km), not from the claimed formula over the original 10 km
distance, which gives `150/23` minutes. -/
theorem a_star_reported_time_counterexample :
    run_a_star c7Graph "N1" (some "F9") [] c7Facilities id 6 4 =
      some (.ok (.success ["N1", "F9"] (240/23) ((12 : ℚ) : WithTop ℚ))) ∧
    (240/23 : ℚ) ≠ pathTimeSum c7Graph ["N1", "F9"] :=
  ⟨c7_run_eq, by norm_num [pathTimeSum, edgeTime, edgeBetween, c7Graph]⟩

/-- C7 (amended) — every travel time reported by a successful `run_a_star`
equals the sum over the returned path\'s edges of
`(distance / (80 · (1 + condition/10 · 0.5))) · 60` minutes, where
`distance` and `condition` are read from the routed `emergency_graph` —
whose distances the penalty fallback may have multiplied in place — rather
than from the original unpenalized graph. -/
theorem run_a_star_time_from_emergency_graph (G : Graph) (src : String) (targetHospital : Option String)
    (ns : List Neighborhood) (fs : List Facility) (sqrtFn : ℚ → ℚ)
    (minCond : ℚ) (fuel : ℕ) (p : List String) (t : ℚ) (std : WithTop ℚ)
    (h : run_a_star G src targetHospital ns fs sqrtFn minCond fuel =
      some (.ok (.success p t std))) :
    t = pathTimeSum (emergencyGraph G minCond src) p := by
  unfold run_a_star at h
  set EG := emergencyGraph G minCond src with hEG
  dsimp only at h
  cases htr : (match targetHospital with
      | some t => (.ok (some t) : Except PyErr (Option String))
      | none => nearestHospital EG src) with
  | error e => rw [htr] at h; cases h
  | ok tOpt =>
    rw [htr] at h
    dsimp only at h
    cases tOpt with
    | none => cases h
    | some tid =>
      cases hff : facilityFind fs (some tid) with
      | none => rw [hff] at h; cases h
      | some hosp =>
        rw [hff] at h
        dsimp only at h
        cases hloop : aStarLoop EG tid (heuristic sqrtFn ns fs hosp.x hosp.y) fuel
            [((0 : WithTop ℚ), src)] (fun _ => none)
            (fun n => if n = src then (0 : WithTop ℚ) else ⊤) with
        | none => rw [hloop] at h; cases h
        | some r =>
          rw [hloop] at h
          cases r with
          | none => cases h
          | some cameFrom =>
            dsimp only at h
            cases hrec : reconstruct cameFrom (G.nodes.length + 1) tid [tid] with
            | none => rw [hrec] at h; cases h
            | some path =>
              rw [hrec] at h
              dsimp only at h
              by_cases hnd : src ∈ G.nodes ∧ tid ∈ G.nodes
              · rw [if_pos hnd] at h
                injection h with h1
                injection h1 with h2
                injection h2 with hp ht _
                subst hp
                rw [← ht, foldl_timeSum EG path 0, zero_add]
              · rw [if_neg hnd] at h
                cases h

/-- Witness for the amended C7 theorem at the concrete penalty-branch run. -/
theorem run_a_star_time_from_emergency_graph_witness :
    (run_a_star c7Graph "N1" (some "F9") [] c7Facilities id 6 4 =
      some (.ok (.success ["N1", "F9"] (240/23) ((12 : ℚ) : WithTop ℚ)))) ∧
    (240/23 : ℚ) = pathTimeSum (emergencyGraph c7Graph 6 "N1") ["N1", "F9"] :=
  ⟨c7_run_eq,
   run_a_star_time_from_emergency_graph c7Graph "N1" (some "F9") [] c7Facilities
     id 6 4 ["N1", "F9"] (240/23) ((12 : ℚ) : WithTop ℚ) c7_run_eq⟩

end CairoTransport
